import Mathlib

/-!
# FriendshipperSourceControl — verification of the state-reconciliation core

Shallow embedding of the file-state data model, the classifier
(`FFriendshipperSourceControlState::GetGitState`), the cache-merge algorithm
(`FriendshipperSourceControlUtils::UpdateCachedStates` /
`CollectNewStates`), the provider's command drain
(`FFriendshipperSourceControlProvider::Tick`), the lock helper (`LockFiles`
in the operations translation unit), and the revert / check-in worker
control flow, together with theorems settling the spec claims about them.

Machine integers (`int32`, timestamps) are modelled as `Nat`; `TArray` as
`List`; `TMap` as an association list whose keys are unique in context.
External I/O (the Friendshipper HTTP backend, git subprocesses, the file
system) is passed in as explicit response parameters, so that each embedded
function is the pure core of its C++ counterpart.
-/

set_option autoImplicit false

/-- `EFileState::Type` — values as used throughout the sources (the enum
header itself is not part of the translation unit set; the value set is
taken from every `EFileState::` occurrence in the sources and the spec's
data model). -/
inductive EFileState where
  | Unset
  | Unknown
  | Added
  | Modified
  | Deleted
  | Unmerged
deriving DecidableEq, Repr

/-- `ETreeState::Type` — values as used throughout the sources. -/
inductive ETreeState where
  | Unset
  | NotInRepo
  | Untracked
  | Working
  | Staged
  | Unmodified
  | Ignored
deriving DecidableEq, Repr

/-- `ELockState::Type` — values as used throughout the sources. -/
inductive ELockState where
  | Unset
  | Unlockable
  | NotLocked
  | Locked
  | LockedOther
deriving DecidableEq, Repr

/-- `ERemoteState::Type` — values as used throughout the sources. -/
inductive ERemoteState where
  | Unset
  | UpToDate
  | NotAtHead
  | NotLatest
deriving DecidableEq, Repr

/-- `EGitState::Type` — the display categories returned by `GetGitState`. -/
inductive EGitState where
  | Unmodified
  | Added
  | Untracked
  | Deleted
  | Modified
  | CheckedOut
  | Ignored
  | Lockable
  | NotAtHead
  | LockedOther
  | NotLatest
  | Unmerged
  | None
deriving DecidableEq, Repr

/-- `FFriendshipperState` — one file's four status axes plus the lock owner
and head-branch strings carried with them (fields exactly as read and
written by `UpdateCachedStates` and `CollectNewStates`). -/
structure FFriendshipperState where
  FileState : EFileState
  TreeState : ETreeState
  LockState : ELockState
  RemoteState : ERemoteState
  LockUser : String
  HeadBranch : String
deriving DecidableEq, Repr

/-- `FDateTime::MinValue()` — the minimum representable date (tick count
zero), modelled as `0 : Nat`. -/
def FDateTimeMinValue : Nat := 0

/-- `FFriendshipperSourceControlState` — a cached state-cache entry: the
axes (`State`), the file name, and the last-update timestamp (`FDateTime`
modelled as `Nat` ticks). History and UI-only fields are omitted: no
embedded function reads them. -/
structure FFriendshipperSourceControlState where
  State : FFriendshipperState
  LocalFilename : String
  TimeStamp : Nat
deriving DecidableEq, Repr

/-- `FFriendshipperSourceControlState::IsUnknown`. -/
def IsUnknown (s : FFriendshipperSourceControlState) : Prop :=
  s.State.FileState = EFileState.Unknown ∧ s.State.TreeState = ETreeState.NotInRepo

instance (s : FFriendshipperSourceControlState) : Decidable (IsUnknown s) :=
  inferInstanceAs (Decidable (_ ∧ _))

/-- `FFriendshipperSourceControlState::CanAdd`. -/
def CanAdd (s : FFriendshipperSourceControlState) : Prop :=
  s.State.TreeState = ETreeState.Untracked

instance (s : FFriendshipperSourceControlState) : Decidable (CanAdd s) :=
  inferInstanceAs (Decidable (_ = _))

/-- `FFriendshipperSourceControlState::IsAdded` — untracked + locked files
are treated as added, as are staged files. -/
def IsAdded (s : FFriendshipperSourceControlState) : Prop :=
  s.State.TreeState = ETreeState.Staged ∨
    (s.State.TreeState = ETreeState.Untracked ∧ s.State.LockState = ELockState.Locked)

instance (s : FFriendshipperSourceControlState) : Decidable (IsAdded s) :=
  inferInstanceAs (Decidable (_ ∨ _))

/-- `FFriendshipperSourceControlState::IsSourceControlled`. -/
def IsSourceControlled (s : FFriendshipperSourceControlState) : Prop :=
  s.State.TreeState ≠ ETreeState.Untracked ∧ s.State.TreeState ≠ ETreeState.Ignored ∧
    s.State.TreeState ≠ ETreeState.NotInRepo

instance (s : FFriendshipperSourceControlState) : Decidable (IsSourceControlled s) :=
  inferInstanceAs (Decidable (_ ∧ _))

/-- `FFriendshipperSourceControlState::IsCurrent`. -/
def IsCurrent (s : FFriendshipperSourceControlState) : Prop :=
  s.State.RemoteState ≠ ERemoteState.NotAtHead ∧ s.State.RemoteState ≠ ERemoteState.NotLatest

instance (s : FFriendshipperSourceControlState) : Decidable (IsCurrent s) :=
  inferInstanceAs (Decidable (_ ∧ _))

/-- `FFriendshipperSourceControlState::IsModified`. -/
def IsModified (s : FFriendshipperSourceControlState) : Prop :=
  s.State.TreeState = ETreeState.Working ∨ s.State.TreeState = ETreeState.Staged

instance (s : FFriendshipperSourceControlState) : Decidable (IsModified s) :=
  inferInstanceAs (Decidable (_ ∨ _))

/-- `FFriendshipperSourceControlState::IsDeleted`. -/
def IsDeleted (s : FFriendshipperSourceControlState) : Prop :=
  s.State.FileState = EFileState.Deleted

instance (s : FFriendshipperSourceControlState) : Decidable (IsDeleted s) :=
  inferInstanceAs (Decidable (_ = _))

/-- `FFriendshipperSourceControlState::CanCheckout` — packages not on disk,
untracked files and unlockable files cannot be checked out; otherwise the
file must be not-locked and current. -/
def CanCheckout (s : FFriendshipperSourceControlState) : Prop :=
  ¬ (s.State.TreeState = ETreeState.NotInRepo) ∧
  ¬ (s.State.TreeState = ETreeState.Untracked) ∧
  ¬ (s.State.LockState = ELockState.Unlockable) ∧
  (s.State.LockState = ELockState.NotLocked ∧ IsCurrent s)

instance (s : FFriendshipperSourceControlState) : Decidable (CanCheckout s) :=
  inferInstanceAs (Decidable (_ ∧ _))

/-- `FFriendshipperSourceControlState::GetGitState` — the classifier,
translated branch for branch from the source. -/
def GetGitState (s : FFriendshipperSourceControlState) : EGitState :=
  match s.State.RemoteState with
  | ERemoteState.NotAtHead => EGitState.NotAtHead
  | _ =>
    if s.State.LockState = ELockState.LockedOther then
      EGitState.LockedOther
    else if s.State.RemoteState = ERemoteState.NotLatest then
      EGitState.NotLatest
    else if IsAdded s then
      EGitState.Added
    else
      match s.State.FileState with
      | EFileState.Unmerged => EGitState.Unmerged
      | EFileState.Deleted => EGitState.Deleted
      | EFileState.Modified => EGitState.Modified
      | _ =>
        if s.State.TreeState = ETreeState.Untracked then
          EGitState.Untracked
        else if s.State.LockState = ELockState.Locked then
          EGitState.CheckedOut
        else if IsSourceControlled s then
          if CanCheckout s then EGitState.Lockable else EGitState.Unmodified
        else
          EGitState.None

/-- The classifier precedence order exactly as the spec states it
(first match wins), written out independently of `GetGitState` so the two
can be compared: NotAtHead; LockedOther; NotLatest; Added (Staged, or
Untracked-and-Locked); Unmerged/Deleted/Modified mirroring `FileState`;
Untracked; CheckedOut when Locked; Lockable (checkout-eligible) or
Unmodified for source-controlled files; None otherwise. -/
def ClassifySpecOrder (s : FFriendshipperSourceControlState) : EGitState :=
  if s.State.RemoteState = ERemoteState.NotAtHead then EGitState.NotAtHead
  else if s.State.LockState = ELockState.LockedOther then EGitState.LockedOther
  else if s.State.RemoteState = ERemoteState.NotLatest then EGitState.NotLatest
  else if s.State.TreeState = ETreeState.Staged ∨
      (s.State.TreeState = ETreeState.Untracked ∧ s.State.LockState = ELockState.Locked) then
    EGitState.Added
  else if s.State.FileState = EFileState.Unmerged then EGitState.Unmerged
  else if s.State.FileState = EFileState.Deleted then EGitState.Deleted
  else if s.State.FileState = EFileState.Modified then EGitState.Modified
  else if s.State.TreeState = ETreeState.Untracked then EGitState.Untracked
  else if s.State.LockState = ELockState.Locked then EGitState.CheckedOut
  else if s.State.TreeState ≠ ETreeState.Untracked ∧ s.State.TreeState ≠ ETreeState.Ignored ∧
      s.State.TreeState ≠ ETreeState.NotInRepo then
    if s.State.LockState = ELockState.NotLocked ∧ s.State.RemoteState ≠ ERemoteState.NotAtHead ∧
        s.State.RemoteState ≠ ERemoteState.NotLatest then
      EGitState.Lockable
    else EGitState.Unmodified
  else EGitState.None

/-- **C1.** For every File State, the classifier `GetGitState` applies the
fixed precedence order stated by the spec: NotAtHead first (regardless of
every other axis, including a simultaneous LockedOther), then LockedOther
(even when NotLatest), then NotLatest, then Added (Staged, or Untracked
with Locked), then Unmerged/Deleted/Modified mirroring `FileState`, then
Untracked, then CheckedOut when Locked, then Lockable or Unmodified for
source-controlled files, and None otherwise. -/
theorem GetGitState_follows_spec_precedence (s : FFriendshipperSourceControlState) :
    GetGitState s = ClassifySpecOrder s := by
  obtain ⟨⟨fs, trs, ls, rs, lu, hb⟩, fn, tstamp⟩ := s
  cases fs <;> cases trs <;> cases ls <;> cases rs <;> rfl

/-- The state-cache entry `GetStateInternal` creates when a file is first
asked about ("cache an unknown state for this item"). Modelled from the
spec: the `FFriendshipperSourceControlState(Filename)` constructor lives in
the class header, which is not among the translation units; the spec's
lifecycle rule says entries are "created lazily (as 'fully unknown')", i.e.
`Unknown`/`NotInRepo` with the remaining axes unobserved. -/
def MakeUnknownState (Filename : String) : FFriendshipperSourceControlState :=
  { State :=
      { FileState := EFileState.Unknown
        TreeState := ETreeState.NotInRepo
        LockState := ELockState.Unset
        RemoteState := ERemoteState.Unset
        LockUser := ""
        HeadBranch := "" }
    LocalFilename := Filename
    TimeStamp := FDateTimeMinValue }

/-- The "invalid transition" guard inside `UpdateCachedStates`: a delta
proposing `FileState = Added` is skipped (`continue`) when the cached entry
is neither unknown nor add-eligible. -/
def AddRejected (cached : FFriendshipperSourceControlState) (NewState : FFriendshipperState) : Prop :=
  NewState.FileState = EFileState.Added ∧ ¬ IsUnknown cached ∧ ¬ CanAdd cached

instance (cached : FFriendshipperSourceControlState) (NewState : FFriendshipperState) :
    Decidable (AddRejected cached NewState) :=
  inferInstanceAs (Decidable (_ ∧ _))

/-- The body of `UpdateCachedStates`'s per-entry loop: compute
`bForceUpdate` from the pre-merge cached entry, skip the whole entry when
the Added-guard fires (`continue`), otherwise overwrite each non-`Unset`
axis (the lock axis also carries `LockUser`, the remote axis also carries
`HeadBranch`, cleared on `UpToDate`), then stamp the entry with
`FDateTime::MinValue()` on a first observation and `FDateTime::Now()`
otherwise. -/
def MergeEntry (cached : FFriendshipperSourceControlState) (NewState : FFriendshipperState)
    (Now : Nat) : FFriendshipperSourceControlState :=
  let bForceUpdate :=
    cached.State.FileState = EFileState.Unknown ∧ cached.State.TreeState = ETreeState.NotInRepo
  if AddRejected cached NewState then cached
  else
    let s0 := cached.State
    let s1 := if NewState.FileState ≠ EFileState.Unset then
        { s0 with FileState := NewState.FileState } else s0
    let s2 := if NewState.TreeState ≠ ETreeState.Unset then
        { s1 with TreeState := NewState.TreeState } else s1
    let s3 := if NewState.LockState ≠ ELockState.Unset then
        { s2 with LockState := NewState.LockState, LockUser := NewState.LockUser } else s2
    let s4 := if NewState.RemoteState ≠ ERemoteState.Unset then
        { s3 with RemoteState := NewState.RemoteState,
                  HeadBranch := if NewState.RemoteState = ERemoteState.UpToDate then ""
                                else NewState.HeadBranch } else s3
    { cached with
        State := s4
        TimeStamp := if bForceUpdate then FDateTimeMinValue else Now }

/-- `TMap::Find` on an association list: first entry with the given key. -/
def FindItem {α : Type} : List (String × α) → String → Option α
  | [], _ => none
  | (k, v) :: rest, key => if k = key then some v else FindItem rest key

/-- Replace the value at a key (first occurrence), or append the pair when
the key is absent (`TMap::Add` / mutation through a found reference). -/
def UpdateItem {α : Type} : List (String × α) → String → α → List (String × α)
  | [], key, v => [(key, v)]
  | (k, w) :: rest, key, v =>
    if k = key then (key, v) :: rest else (k, w) :: UpdateItem rest key v

/-- The state cache: `TMap<FString, FFriendshipperSourceControlState>`,
keys unique in context. -/
abbrev StateCacheModel : Type := List (String × FFriendshipperSourceControlState)

/-- `FFriendshipperSourceControlProvider::AddFileToIgnoreForceCache` —
`TArray::Add` appends and returns the index at which the item was placed
(the array's previous size); the method returns whether that index is
positive. -/
def AddFileToIgnoreForceCache (IgnoreForceCache : List String) (Filename : String) :
    List String × Bool :=
  let index := IgnoreForceCache.length
  (IgnoreForceCache ++ [Filename], decide (0 < index))

/-- `FFriendshipperSourceControlProvider::RemoveFileFromIgnoreForceCache` —
`TArray::Remove` removes every element equal to the item and returns the
number removed; the method returns whether that number is positive. -/
def RemoveFileFromIgnoreForceCache (IgnoreForceCache : List String) (Filename : String) :
    List String × Bool :=
  let kept := IgnoreForceCache.filter (fun f => f ≠ Filename)
  (kept, decide (0 < IgnoreForceCache.length - kept.length))

/-- One iteration of `UpdateCachedStates`'s loop over `InResults`, acting
on the provider's state cache and ignore-force cache: `GetStateInternal`
finds the cached entry or creates (and caches) a fully-unknown one, the
entry is merged by `MergeEntry`, and — unless the Added-guard `continue`
fired — the file is added to the ignore-force cache. -/
def UpdateCachedStep (Now : Nat) (acc : StateCacheModel × List String)
    (Pair : String × FFriendshipperState) : StateCacheModel × List String :=
  let cache := acc.1
  let ignore := acc.2
  let entry := (FindItem cache Pair.1).getD (MakeUnknownState Pair.1)
  let cache' :=
    match FindItem cache Pair.1 with
    | some _ => cache
    | none => cache ++ [(Pair.1, entry)]
  if AddRejected entry Pair.2 then (cache', ignore)
  else
    (UpdateItem cache' Pair.1 (MergeEntry entry Pair.2 Now),
     (AddFileToIgnoreForceCache ignore entry.LocalFilename).1)

/-- `FriendshipperSourceControlUtils::UpdateCachedStates` (first
translation-unit copy, the one the spec was written from): returns `false`
on an empty result map, otherwise merges every delta into the provider's
state cache and reports `true`. `FDateTime::Now()` is the `Now`
parameter. -/
def UpdateCachedStates (cache : StateCacheModel) (IgnoreForceCache : List String)
    (InResults : List (String × FFriendshipperState)) (Now : Nat) :
    StateCacheModel × List String × Bool :=
  if InResults.isEmpty then (cache, IgnoreForceCache, false)
  else
    let acc := InResults.foldl (UpdateCachedStep Now) (cache, IgnoreForceCache)
    (acc.1, acc.2, true)

/-- Characterization of `MergeEntry` when the Added-guard does not fire:
each non-`Unset` axis of the delta replaces the cached axis, each `Unset`
axis is kept, `LockUser`/`HeadBranch` ride along with their axes, and the
timestamp is `FDateTime::MinValue()` exactly on a first observation. -/
theorem MergeEntry_eq (cached : FFriendshipperSourceControlState) (delta : FFriendshipperState)
    (Now : Nat) (h : ¬ AddRejected cached delta) :
    MergeEntry cached delta Now =
      { State :=
          { FileState := if delta.FileState = EFileState.Unset then cached.State.FileState
                         else delta.FileState
            TreeState := if delta.TreeState = ETreeState.Unset then cached.State.TreeState
                         else delta.TreeState
            LockState := if delta.LockState = ELockState.Unset then cached.State.LockState
                         else delta.LockState
            RemoteState := if delta.RemoteState = ERemoteState.Unset then cached.State.RemoteState
                           else delta.RemoteState
            LockUser := if delta.LockState = ELockState.Unset then cached.State.LockUser
                        else delta.LockUser
            HeadBranch := if delta.RemoteState = ERemoteState.Unset then cached.State.HeadBranch
                          else if delta.RemoteState = ERemoteState.UpToDate then ""
                          else delta.HeadBranch }
        LocalFilename := cached.LocalFilename
        TimeStamp := if cached.State.FileState = EFileState.Unknown ∧
            cached.State.TreeState = ETreeState.NotInRepo then FDateTimeMinValue else Now } := by
  obtain ⟨⟨cfs, cts, cls, crs, clu, chb⟩, cfn, ct⟩ := cached
  simp only [MergeEntry, h, if_false]
  split_ifs <;> simp_all

/-- `MergeEntry` leaves the cached entry untouched when the Added-guard
fires (`continue` in the source loop). -/
theorem MergeEntry_of_AddRejected (cached : FFriendshipperSourceControlState)
    (delta : FFriendshipperState) (Now : Nat) (h : AddRejected cached delta) :
    MergeEntry cached delta Now = cached := by
  simp [MergeEntry, h]

/-- A cached entry whose file is modified and whose tree state is
unmodified: neither unknown nor add-eligible. -/
def EntryModifiedUnmodified : FFriendshipperSourceControlState :=
  { State :=
      { FileState := EFileState.Modified
        TreeState := ETreeState.Unmodified
        LockState := ELockState.NotLocked
        RemoteState := ERemoteState.UpToDate
        LockUser := ""
        HeadBranch := "" }
    LocalFilename := "/repo/A.uasset"
    TimeStamp := 7 }

/-- A delta proposing `FileState = Added` together with a fresh
(non-`Unset`) `TreeState = Untracked` observation. -/
def DeltaAddedUntracked : FFriendshipperState :=
  { FileState := EFileState.Added
    TreeState := ETreeState.Untracked
    LockState := ELockState.Unset
    RemoteState := ERemoteState.Unset
    LockUser := ""
    HeadBranch := "" }

/-- **C2 (counterexample).** Axis independence fails as stated: merging a
delta whose `TreeState` is not `Unset` can leave the cached `TreeState`
untouched, because a delta rejected by the Added-guard is skipped whole:
with a cached Modified/Unmodified entry and a delta Added/Untracked, the
delta's non-`Unset` `TreeState` does not replace the cached value. -/
theorem UpdateCachedStates_axis_independence_counterexample :
    DeltaAddedUntracked.TreeState ≠ ETreeState.Unset ∧
    DeltaAddedUntracked.TreeState ≠ EntryModifiedUnmodified.State.TreeState ∧
    FindItem (UpdateCachedStates [("/repo/A.uasset", EntryModifiedUnmodified)] []
        [("/repo/A.uasset", DeltaAddedUntracked)] 42).1 "/repo/A.uasset" =
      some EntryModifiedUnmodified := by
  decide

/-- **C2 (amended).** For every cached File State and every delta merged by
`UpdateCachedStates`, per axis: an `Unset` axis in the delta always keeps
the cached value; a non-`Unset` axis replaces the cached value for that
axis only — *unless* the delta is rejected by the Added-guard
(`FileState = Added` against an entry neither unknown nor add-eligible),
in which case the entire delta is skipped and every axis keeps the cached
value. -/
theorem UpdateCachedStates_axis_independence_amended
    (cached : FFriendshipperSourceControlState) (delta : FFriendshipperState) (Now : Nat) :
    ((delta.FileState = EFileState.Unset →
        (MergeEntry cached delta Now).State.FileState = cached.State.FileState) ∧
     (delta.TreeState = ETreeState.Unset →
        (MergeEntry cached delta Now).State.TreeState = cached.State.TreeState) ∧
     (delta.LockState = ELockState.Unset →
        (MergeEntry cached delta Now).State.LockState = cached.State.LockState) ∧
     (delta.RemoteState = ERemoteState.Unset →
        (MergeEntry cached delta Now).State.RemoteState = cached.State.RemoteState)) ∧
    (¬ AddRejected cached delta →
     ((delta.FileState ≠ EFileState.Unset →
        (MergeEntry cached delta Now).State.FileState = delta.FileState) ∧
      (delta.TreeState ≠ ETreeState.Unset →
        (MergeEntry cached delta Now).State.TreeState = delta.TreeState) ∧
      (delta.LockState ≠ ELockState.Unset →
        (MergeEntry cached delta Now).State.LockState = delta.LockState) ∧
      (delta.RemoteState ≠ ERemoteState.Unset →
        (MergeEntry cached delta Now).State.RemoteState = delta.RemoteState))) ∧
    (AddRejected cached delta → MergeEntry cached delta Now = cached) := by
  by_cases h : AddRejected cached delta
  · have hm := MergeEntry_of_AddRejected cached delta Now h
    exact ⟨⟨fun _ => by rw [hm], fun _ => by rw [hm], fun _ => by rw [hm], fun _ => by rw [hm]⟩,
      fun hn => absurd h hn, fun _ => hm⟩
  · have hm := MergeEntry_eq cached delta Now h
    rw [hm]
    refine ⟨⟨?_, ?_, ?_, ?_⟩, fun _ => ⟨?_, ?_, ?_, ?_⟩, fun hr => absurd hr h⟩ <;>
      intro h1 <;> simp [h1]

/-- A cached tracked entry (Working tree, not locked), not add-eligible. -/
def EntryWorkingNotLocked : FFriendshipperSourceControlState :=
  { State :=
      { FileState := EFileState.Modified
        TreeState := ETreeState.Working
        LockState := ELockState.NotLocked
        RemoteState := ERemoteState.UpToDate
        LockUser := ""
        HeadBranch := "" }
    LocalFilename := "/repo/B.uasset"
    TimeStamp := 3 }

/-- A delta observing only the file and tree axes. -/
def DeltaModifiedWorking : FFriendshipperState :=
  { FileState := EFileState.Modified
    TreeState := ETreeState.Working
    LockState := ELockState.Unset
    RemoteState := ERemoteState.Unset
    LockUser := ""
    HeadBranch := "" }

/-- Witness for the amended C2 theorem at a concrete entry and delta: the
non-`Unset` tree axis is replaced, the `Unset` remote axis is kept. -/
theorem UpdateCachedStates_axis_independence_amended_witness :
    (MergeEntry EntryWorkingNotLocked DeltaModifiedWorking 9).State.TreeState =
      DeltaModifiedWorking.TreeState ∧
    (MergeEntry EntryWorkingNotLocked DeltaModifiedWorking 9).State.RemoteState =
      EntryWorkingNotLocked.State.RemoteState := by
  have h := UpdateCachedStates_axis_independence_amended EntryWorkingNotLocked
    DeltaModifiedWorking 9
  exact ⟨(h.2.1 (by decide)).2.1 (by decide), h.1.2.2.2 (by decide)⟩

/-- **C3.** Merging a delta whose `FileState` is `Added` into a cached
entry that is neither fully unknown nor add-eligible leaves the cached
entry unchanged (in particular its `FileState`), and `UpdateCachedStates`
still reports success — the rejected Add is skipped silently, not surfaced
as an error. -/
theorem UpdateCachedStates_add_guard (cache : StateCacheModel) (ignore : List String)
    (f : String) (cached : FFriendshipperSourceControlState) (delta : FFriendshipperState)
    (Now : Nat) (hfind : FindItem cache f = some cached)
    (hadd : delta.FileState = EFileState.Added)
    (hunknown : ¬ IsUnknown cached) (hcanadd : ¬ CanAdd cached) :
    FindItem (UpdateCachedStates cache ignore [(f, delta)] Now).1 f = some cached ∧
    (UpdateCachedStates cache ignore [(f, delta)] Now).2.2 = true := by
  have hrej : AddRejected cached delta := ⟨hadd, hunknown, hcanadd⟩
  simp [UpdateCachedStates, UpdateCachedStep, hfind, hrej]

/-- Witness for C3: a Modified/Unmodified cached entry rejects an
Added/Untracked delta; the cache keeps the entry verbatim and the merge
reports success. -/
theorem UpdateCachedStates_add_guard_witness :
    FindItem (UpdateCachedStates [("/repo/A.uasset", EntryModifiedUnmodified)] []
        [("/repo/A.uasset", DeltaAddedUntracked)] 42).1 "/repo/A.uasset" =
      some EntryModifiedUnmodified ∧
    (UpdateCachedStates [("/repo/A.uasset", EntryModifiedUnmodified)] []
        [("/repo/A.uasset", DeltaAddedUntracked)] 42).2.2 = true :=
  UpdateCachedStates_add_guard [("/repo/A.uasset", EntryModifiedUnmodified)] []
    "/repo/A.uasset" EntryModifiedUnmodified DeltaAddedUntracked 42
    (by decide) (by decide) (by decide) (by decide)

/-- **C9.** `UpdateCachedStates` stamps each merged (non-rejected) entry
with the current time, except when the cached entry was fully unknown
(`FileState = Unknown` and `TreeState = NotInRepo`) before the merge — the
file's very first observation — in which case the timestamp is set to
`FDateTime::MinValue()`, the minimum representable date. -/
theorem UpdateCachedStates_timestamp (cached : FFriendshipperSourceControlState)
    (delta : FFriendshipperState) (Now : Nat) (h : ¬ AddRejected cached delta) :
    (MergeEntry cached delta Now).TimeStamp =
      if cached.State.FileState = EFileState.Unknown ∧
          cached.State.TreeState = ETreeState.NotInRepo then FDateTimeMinValue
      else Now := by
  rw [MergeEntry_eq cached delta Now h]

/-- Witness for C9: a first-observation entry gets the minimum date, an
already-observed entry gets the current time. -/
theorem UpdateCachedStates_timestamp_witness :
    (MergeEntry (MakeUnknownState "/repo/C.uasset") DeltaModifiedWorking 99).TimeStamp =
      FDateTimeMinValue ∧
    (MergeEntry EntryWorkingNotLocked DeltaModifiedWorking 99).TimeStamp = 99 := by
  have h1 := UpdateCachedStates_timestamp (MakeUnknownState "/repo/C.uasset")
    DeltaModifiedWorking 99 (by decide)
  have h2 := UpdateCachedStates_timestamp EntryWorkingNotLocked DeltaModifiedWorking 99
    (by decide)
  constructor
  · simpa using h1
  · simpa using h2

/-- Helper: filtering strictly shortens a list exactly when some element
fails the predicate. -/
theorem length_sub_filter_pos {α : Type} (p : α → Bool) (l : List α) :
    0 < l.length - (l.filter p).length ↔ ∃ x ∈ l, ¬ p x = true := by
  induction l with
  | nil => simp
  | cons a t ih =>
    have hle : (t.filter p).length ≤ t.length := List.length_filter_le _ t
    by_cases hpa : p a = true
    · simp only [List.filter_cons, hpa, if_true, List.length_cons, List.mem_cons]
      constructor
      · intro h
        obtain ⟨x, hx, hnx⟩ := ih.mp (by omega)
        exact ⟨x, Or.inr hx, hnx⟩
      · rintro ⟨x, hx | hx, hnx⟩
        · rw [hx] at hnx
          exact absurd hpa hnx
        · have := ih.mpr ⟨x, hx, hnx⟩
          omega
    · have hpa2 : p a = false := by simpa using hpa
      simp only [List.filter_cons, hpa2, Bool.false_eq_true, if_false, List.length_cons,
        List.mem_cons]
      constructor
      · intro _
        exact ⟨a, Or.inl rfl, hpa⟩
      · intro _
        omega

/-- **C10.** The ignore-force list bookkeeping:
`AddFileToIgnoreForceCache` appends and returns `true` only when the file
landed at a nonzero index (so the very first add to an empty list returns
`false` although the file was added); repeated adds append duplicates (no
deduplication); `RemoveFileFromIgnoreForceCache` removes every copy of the
file at once and returns `true` exactly when at least one entry was
removed. -/
theorem IgnoreForceCache_add_remove (cache : List String) (f : String) :
    ((AddFileToIgnoreForceCache cache f).2 = true ↔ cache ≠ []) ∧
    (AddFileToIgnoreForceCache cache f).1 = cache ++ [f] ∧
    (AddFileToIgnoreForceCache (AddFileToIgnoreForceCache cache f).1 f).1 =
      cache ++ [f, f] ∧
    (RemoveFileFromIgnoreForceCache cache f).1 = cache.filter (fun g => g ≠ f) ∧
    ((RemoveFileFromIgnoreForceCache cache f).2 = true ↔ f ∈ cache) := by
  refine ⟨?_, rfl, by simp [AddFileToIgnoreForceCache], rfl, ?_⟩
  · simp [AddFileToIgnoreForceCache, List.length_pos]
  · simp only [RemoveFileFromIgnoreForceCache, decide_eq_true_eq]
    rw [length_sub_filter_pos]
    simp

/-- The revert worker's restore-working-copy retry loop
(`int32 Attempts = 10; while (Attempts-- > 0) { ... }`): `outcome i` is
whether the `i`-th `git checkout` call (0-based) succeeds; the loop stops
at the first success and sleeps `FPlatformProcess::Sleep(0.1f)` — 100
milliseconds — after every failed attempt. The result records the final
`CheckoutSuccess`, the number of checkout calls made, and the total
milliseconds slept. -/
def RetryCheckoutLoop (outcome : Nat → Bool) : Nat → Nat → Bool × Nat × Nat
  | _, 0 => (false, 0, 0)
  | i, Nat.succ n =>
    if outcome i then (true, 1, 0)
    else
      let r := RetryCheckoutLoop outcome (i + 1) n
      (r.1, r.2.1 + 1, r.2.2 + 100)

/-- The restore-working-copy step of `FFriendshipperRevertWorker::Execute`:
ten allowed attempts starting from the first call. -/
def RetryCheckout (outcome : Nat → Bool) : Bool × Nat × Nat :=
  RetryCheckoutLoop outcome 0 10

/-- Helper: the retry loop is the search for the first successful attempt
among the next `n`, counting one 100ms sleep per failure. -/
theorem RetryCheckoutLoop_eq (outcome : Nat → Bool) :
    ∀ (n i : Nat),
      RetryCheckoutLoop outcome i n =
        match (List.range n).find? (fun k => outcome (i + k)) with
        | some k => (true, k + 1, 100 * k)
        | none => (false, n, 100 * n) := by
  intro n
  induction n with
  | zero => intro i; simp [RetryCheckoutLoop]
  | succ n ih =>
    intro i
    rw [List.range_succ_eq_map]
    by_cases h : outcome i
    · simp [RetryCheckoutLoop, h]
    · have hfun : (fun k => outcome (i + Nat.succ k)) = (fun k => outcome (i + 1 + k)) := by
        funext k
        congr 1
        omega
      simp only [RetryCheckoutLoop, h, Bool.false_eq_true, if_false, List.find?_cons,
        Nat.add_zero, List.find?_map, Function.comp_def, hfun, ih (i + 1)]
      cases hres : (List.range n).find? (fun k => outcome (i + 1 + k)) with
      | none => simp [hres, Nat.mul_succ]
      | some k => simp [hres, Nat.mul_succ, Nat.mul_add]

/-- **C7.** The revert worker's restore-working-copy step is attempted at
most 10 times — never an 11th — stopping at the first successful attempt,
with a fixed 100ms sleep after each failed attempt; the step is treated as
successful exactly when one of the (at most 10) attempts succeeds: the
loop computes the first success among attempts `0..9`, makes that many
calls, and sleeps 100ms per failure. -/
theorem RevertWorker_retry_characterization (outcome : Nat → Bool) :
    RetryCheckout outcome =
      (match (List.range 10).find? (fun k => outcome k) with
       | some k => (true, k + 1, 100 * k)
       | none => (false, 10, 1000)) ∧
    (RetryCheckout outcome).2.1 ≤ 10 ∧
    ((RetryCheckout outcome).1 = true ↔ ∃ k, k < 10 ∧ outcome k = true) := by
  have hmain := RetryCheckoutLoop_eq outcome 10 0
  simp only [Nat.zero_add] at hmain
  have hchar : RetryCheckout outcome =
      (match (List.range 10).find? (fun k => outcome k) with
       | some k => (true, k + 1, 100 * k)
       | none => (false, 10, 1000)) := by
    rw [RetryCheckout, hmain]
  refine ⟨hchar, ?_, ?_⟩ <;> rw [hchar]
  · cases hres : (List.range 10).find? (fun k => outcome k) with
    | none => simp
    | some k =>
      have hk10 : k < 10 := List.mem_range.mp (List.mem_of_find?_eq_some hres)
      simp only []
      omega
  · cases hres : (List.range 10).find? (fun k => outcome k) with
    | none =>
      have hall := List.find?_eq_none.mp hres
      simp only []
      constructor
      · intro hfalse
        exact absurd hfalse (by simp)
      · rintro ⟨k, hk, hout⟩
        exact absurd hout (by simpa using hall k (List.mem_range.mpr hk))
    | some k =>
      have hk10 : k < 10 := List.mem_range.mp (List.mem_of_find?_eq_some hres)
      have hout : outcome k = true := by
        have := List.find?_some hres
        simpa using this
      simp only []
      exact ⟨fun _ => ⟨k, hk10, hout⟩, fun _ => by simp⟩

/-- The success/failure outcome of `FFriendshipperRevertWorker::Execute`,
with every external effect passed in: the file partition computed by
`GetMissingVsExistingFiles`, the results of the git `reset --hard` /
`clean` (full-revert path) or `rm` / `reset` calls, the per-attempt
results of the retried `checkout`, the locked files found by
`GetLockedFiles`, and the return value of the backend
`Client.UnlockFiles` call. Mirrors the source control flow: `bSuccess`
accumulates the git step results, and the unlock block returns `false`
early when the backend unlock call reports failure; the trailing status
re-fetch and asset-registry scan do not affect the return value. -/
def RevertExecuteModel (Files MissingFiles AllExistingFiles OtherThanAddedExistingFiles : List String)
    (resetHardResult cleanResult rmResult resetResult : Bool)
    (checkoutOutcome : Nat → Bool) (LockedFiles : List String) (unlockCallOk : Bool) : Bool :=
  let bRevertAll := Files.length < 1
  let bSuccess :=
    if bRevertAll then
      (true && resetHardResult) && cleanResult
    else
      let s1 := if MissingFiles.length > 0 then true && rmResult else true
      let s2 := if AllExistingFiles.length > 0 then s1 && resetResult else s1
      if OtherThanAddedExistingFiles.length > 0 then
        s2 && (RetryCheckout checkoutOutcome).1
      else s2
  if LockedFiles.length > 0 ∧ unlockCallOk = false then false
  else bSuccess

/-- **C6.** Evaluation at the failing input: a single-file revert in which
every git step succeeds (`rm`/`reset` unused, `reset` succeeds, the
retried `checkout` succeeds on its first attempt) and the file is locked,
but the backend `UnlockFiles` call fails. The worker returns `false` —
the Revert command is reported as failed — although with a successful
unlock the identical revert returns `true`. This contradicts the claim
(and the source's own "Throw away the result here, this is an optimistic
unlock" comment): the unlock failure is fatal in the code. -/
theorem RevertWorker_unlock_failure_evaluation :
    RevertExecuteModel ["/repo/D.uasset"] [] ["/repo/D.uasset"] ["/repo/D.uasset"]
      true true true true (fun _ => true) ["/repo/D.uasset"] false = false ∧
    RevertExecuteModel ["/repo/D.uasset"] [] ["/repo/D.uasset"] ["/repo/D.uasset"]
      true true true true (fun _ => true) ["/repo/D.uasset"] true = true := by
  constructor <;> rfl

/-- `FFriendshipperSourceControlCommand`, reduced to the fields
`Tick()` reads and writes: the completion flag set by the background
thread, the cancellation flag, the auto-delete flag, and the worker's
collected file-state deltas (`States`), merged on drain via the worker's
`UpdateStates()` (= `UpdateCachedStates(States)`). -/
structure FFriendshipperSourceControlCommand where
  bExecuteProcessed : Bool
  bCancelled : Bool
  bAutoDelete : Bool
  States : List (String × FFriendshipperState)
deriving DecidableEq, Repr

/-- What happened to the one command a `Tick()` call drained: whether its
completion callback (`ReturnResults`) ran and whether it was deleted. -/
structure TickEvent where
  Command : FFriendshipperSourceControlCommand
  bCallbackInvoked : Bool
  bDeleted : Bool
deriving DecidableEq, Repr

/-- The provider state a `Tick()` call leaves behind, plus the drained
commands (as events). -/
structure TickResult where
  CommandQueue : List FFriendshipperSourceControlCommand
  StateCache : StateCacheModel
  IgnoreForceCache : List String
  Drained : List TickEvent
deriving Repr

/-- The command-scan loop of `FFriendshipperSourceControlProvider::Tick`:
walk the queue in order; at the first command with `bExecuteProcessed`,
remove it, merge its deltas via `UpdateCachedStates`, invoke its callback
unless cancelled, delete it if auto-delete, and break; at the first
cancelled (unprocessed) command, mark it auto-delete, invoke
`ReturnResults`, and break, leaving it queued; otherwise keep
scanning. -/
def TickLoop (Now : Nat) : List FFriendshipperSourceControlCommand → StateCacheModel →
    List String → TickResult
  | [], cache, ignore => ⟨[], cache, ignore, []⟩
  | c :: rest, cache, ignore =>
    if c.bExecuteProcessed then
      let m := UpdateCachedStates cache ignore c.States Now
      ⟨rest, m.1, m.2.1, [⟨c, !c.bCancelled, c.bAutoDelete⟩]⟩
    else if c.bCancelled then
      ⟨{ c with bAutoDelete := true } :: rest, cache, ignore, []⟩
    else
      let r := TickLoop Now rest cache ignore
      ⟨c :: r.CommandQueue, r.StateCache, r.IgnoreForceCache, r.Drained⟩

/-- `FFriendshipperSourceControlProvider::Tick` (drain step; the
forced-update countdown and the state-changed broadcast carry no queue or
cache effects). -/
def Tick (Now : Nat) (queue : List FFriendshipperSourceControlCommand)
    (cache : StateCacheModel) (ignore : List String) : TickResult :=
  TickLoop Now queue cache ignore

/-- `n` successive `Tick()` calls threading queue, state cache and
ignore-force cache. -/
def TickIter (Now : Nat) :
    Nat → List FFriendshipperSourceControlCommand × StateCacheModel × List String →
    List FFriendshipperSourceControlCommand × StateCacheModel × List String
  | 0, st => st
  | n + 1, st =>
    let r := Tick Now st.1 st.2.1 st.2.2
    TickIter Now n (r.CommandQueue, r.StateCache, r.IgnoreForceCache)

/-- Helper: a single tick drains at most one command. -/
theorem TickLoop_drained_length (Now : Nat) (queue : List FFriendshipperSourceControlCommand)
    (cache : StateCacheModel) (ignore : List String) :
    (TickLoop Now queue cache ignore).Drained.length ≤ 1 := by
  induction queue with
  | nil => simp [TickLoop]
  | cons c rest ih =>
    by_cases hp : c.bExecuteProcessed
    · simp [TickLoop, hp]
    · by_cases hc : c.bCancelled
      · simp [TickLoop, hp, hc]
      · simpa [TickLoop, hp, hc] using ih

/-- Helper: any drained command was a completed command of the queue; it
was removed (queue shrinks by exactly one), its deltas were merged via
`UpdateCachedStates`, its callback ran unless it was cancelled, and it was
deleted exactly when marked auto-delete. -/
theorem TickLoop_drained_mem (Now : Nat) (queue : List FFriendshipperSourceControlCommand)
    (cache : StateCacheModel) (ignore : List String) (e : TickEvent)
    (he : e ∈ (TickLoop Now queue cache ignore).Drained) :
    e.Command ∈ queue ∧ e.Command.bExecuteProcessed = true ∧
    (TickLoop Now queue cache ignore).CommandQueue.length + 1 = queue.length ∧
    (TickLoop Now queue cache ignore).StateCache =
      (UpdateCachedStates cache ignore e.Command.States Now).1 ∧
    e.bCallbackInvoked = !e.Command.bCancelled ∧
    e.bDeleted = e.Command.bAutoDelete := by
  induction queue with
  | nil => simp [TickLoop] at he
  | cons c rest ih =>
    by_cases hp : c.bExecuteProcessed
    · simp only [TickLoop, hp, if_true, List.mem_singleton] at he
      subst he
      simp [TickLoop, hp]
    · by_cases hc : c.bCancelled
      · simp [TickLoop, hp, hc] at he
      · simp only [TickLoop, hp, hc, Bool.false_eq_true, if_false] at he ⊢
        obtain ⟨h1, h2, h3, h4, h5, h6⟩ := ih he
        exact ⟨List.mem_cons_of_mem c h1, h2, by simpa using h3, h4, h5, h6⟩

/-- Helper: with every queued command completed, each tick removes the
head, so `queue.length` ticks empty the queue. -/
theorem TickIter_empties (Now : Nat) (queue : List FFriendshipperSourceControlCommand) :
    ∀ (cache : StateCacheModel) (ignore : List String),
      (∀ c ∈ queue, c.bExecuteProcessed = true) →
      (TickIter Now queue.length (queue, cache, ignore)).1 = [] := by
  induction queue with
  | nil => intro cache ignore _; rfl
  | cons c rest ih =>
    intro cache ignore hall
    have hp : c.bExecuteProcessed = true := hall c (List.mem_cons_self c rest)
    have hrest : ∀ c2 ∈ rest, c2.bExecuteProcessed = true :=
      fun c2 hc2 => hall c2 (List.mem_cons_of_mem c hc2)
    simp only [List.length_cons, TickIter, Tick, TickLoop, hp, if_true]
    exact ih _ _ hrest

/-- **C4.** Every `Tick()` call drains at most one completed command: it
is removed from the queue (the queue shrinks by exactly one), its
file-state deltas are merged into the state cache via its worker's
`UpdateStates` (= `UpdateCachedStates`), its completion callback is
invoked (unless cancelled) and it is deleted exactly when marked
auto-delete; and with `N` completed commands queued and no new
completions, `N` calls to `Tick()` leave the queue empty. -/
theorem Tick_drains_at_most_one (Now : Nat)
    (queue : List FFriendshipperSourceControlCommand) (cache : StateCacheModel)
    (ignore : List String) :
    (Tick Now queue cache ignore).Drained.length ≤ 1 ∧
    (∀ e ∈ (Tick Now queue cache ignore).Drained,
      e.Command ∈ queue ∧ e.Command.bExecuteProcessed = true ∧
      (Tick Now queue cache ignore).CommandQueue.length + 1 = queue.length ∧
      (Tick Now queue cache ignore).StateCache =
        (UpdateCachedStates cache ignore e.Command.States Now).1 ∧
      e.bCallbackInvoked = !e.Command.bCancelled ∧
      e.bDeleted = e.Command.bAutoDelete) ∧
    ((∀ c ∈ queue, c.bExecuteProcessed = true) →
      (TickIter Now queue.length (queue, cache, ignore)).1 = []) :=
  ⟨TickLoop_drained_length Now queue cache ignore,
   fun e he => TickLoop_drained_mem Now queue cache ignore e he,
   TickIter_empties Now queue cache ignore⟩

/-- Two completed commands, one carrying a lock delta. -/
def TickWitnessCommandA : FFriendshipperSourceControlCommand :=
  { bExecuteProcessed := true
    bCancelled := false
    bAutoDelete := true
    States := [("/repo/E.uasset", DeltaModifiedWorking)] }

/-- A second completed command with no deltas. -/
def TickWitnessCommandB : FFriendshipperSourceControlCommand :=
  { bExecuteProcessed := true
    bCancelled := false
    bAutoDelete := false
    States := [] }

/-- Witness for C4 at a concrete two-command queue: one tick drains at
most one command, and two ticks empty the queue. -/
theorem Tick_drains_at_most_one_witness :
    (Tick 5 [TickWitnessCommandA, TickWitnessCommandB] [] []).Drained.length ≤ 1 ∧
    (TickIter 5 [TickWitnessCommandA, TickWitnessCommandB].length
      ([TickWitnessCommandA, TickWitnessCommandB], [], [])).1 = [] := by
  have h := Tick_drains_at_most_one 5 [TickWitnessCommandA, TickWitnessCommandB] [] []
  exact ⟨h.1, h.2.2 (by decide)⟩

/-- Helper: looking up the key just updated. -/
theorem FindItem_UpdateItem_self {α : Type} (l : List (String × α)) (k : String) (v : α) :
    FindItem (UpdateItem l k v) k = some v := by
  induction l with
  | nil => simp [UpdateItem, FindItem]
  | cons p rest ih =>
    obtain ⟨a, b⟩ := p
    by_cases h : a = k
    · simp [UpdateItem, FindItem, h]
    · simpa [UpdateItem, FindItem, h] using ih

/-- Helper: updating one key leaves every other key's lookup unchanged. -/
theorem FindItem_UpdateItem_ne {α : Type} (l : List (String × α)) (k k2 : String) (v : α)
    (h : k ≠ k2) : FindItem (UpdateItem l k v) k2 = FindItem l k2 := by
  induction l with
  | nil => simp [UpdateItem, FindItem, h]
  | cons p rest ih =>
    obtain ⟨a, b⟩ := p
    by_cases hp : a = k
    · by_cases hq : a = k2
      · rw [hp] at hq
        exact absurd hq h
      · simp [UpdateItem, FindItem, hp, hq, h]
    · rw [show UpdateItem ((a, b) :: rest) k v = (a, b) :: UpdateItem rest k v from by
        simp [UpdateItem, hp]]
      by_cases hq : a = k2
      · simp [FindItem, hq]
      · simp [FindItem, hq, ih]

/-- Helper: appending an entry for an absent key makes it found. -/
theorem FindItem_append_of_none {α : Type} (l : List (String × α)) (k : String) (v : α)
    (h : FindItem l k = none) : FindItem (l ++ [(k, v)]) k = some v := by
  induction l with
  | nil => simp [FindItem]
  | cons p rest ih =>
    obtain ⟨a, b⟩ := p
    by_cases hp : a = k
    · simp [FindItem, hp] at h
    · simp only [FindItem, hp, if_false, List.cons_append] at h ⊢
      exact ih h

/-- Helper: appending an entry for another key changes no other lookup. -/
theorem FindItem_append_ne {α : Type} (l : List (String × α)) (k k2 : String) (v : α)
    (h : k ≠ k2) : FindItem (l ++ [(k, v)]) k2 = FindItem l k2 := by
  induction l with
  | nil => simp [FindItem, h]
  | cons p rest ih =>
    obtain ⟨a, b⟩ := p
    by_cases hp : a = k2
    · simp [FindItem, hp]
    · simpa [FindItem, hp] using ih

/-- Helper: a lookup misses exactly when no entry carries the key. -/
theorem FindItem_eq_none_iff {α : Type} (l : List (String × α)) (k : String) :
    FindItem l k = none ↔ ∀ p ∈ l, p.1 ≠ k := by
  induction l with
  | nil => simp [FindItem]
  | cons p rest ih =>
    obtain ⟨a, b⟩ := p
    by_cases hp : a = k
    · simp [FindItem, hp]
    · simp [FindItem, hp, ih]

/-- Helper: one `UpdateCachedStates` loop iteration leaves every other
key's lookup unchanged. -/
theorem UpdateCachedStep_ne (Now : Nat) (acc : StateCacheModel × List String)
    (p : String × FFriendshipperState) (f : String) (h : p.1 ≠ f) :
    FindItem (UpdateCachedStep Now acc p).1 f = FindItem acc.1 f := by
  unfold UpdateCachedStep
  cases hf : FindItem acc.1 p.1 with
  | some e =>
    simp only [hf]
    by_cases hrej : AddRejected e p.2
    · simp [hrej]
    · simp [hrej, FindItem_UpdateItem_ne _ _ _ _ h]
  | none =>
    simp only [hf]
    by_cases hrej : AddRejected (MakeUnknownState p.1) p.2
    · simp [hrej, FindItem_append_ne _ _ _ _ h]
    · simp only [Option.getD_some, Option.getD_none, hrej, if_false]
      rw [FindItem_UpdateItem_ne _ _ _ _ h, FindItem_append_ne _ _ _ _ h]

/-- Helper: one `UpdateCachedStates` loop iteration merges its own key:
the found-or-created entry is replaced by its `MergeEntry` image (which is
the entry itself when the Added-guard fires). -/
theorem UpdateCachedStep_self (Now : Nat) (acc : StateCacheModel × List String)
    (f : String) (d : FFriendshipperState) :
    FindItem (UpdateCachedStep Now acc (f, d)).1 f =
      some (MergeEntry ((FindItem acc.1 f).getD (MakeUnknownState f)) d Now) := by
  unfold UpdateCachedStep
  cases hf : FindItem acc.1 f with
  | some e =>
    simp only [hf]
    by_cases hrej : AddRejected e d
    · simp [hrej, MergeEntry_of_AddRejected _ _ _ hrej, hf]
    · simp [hrej, FindItem_UpdateItem_self]
  | none =>
    simp only [hf]
    by_cases hrej : AddRejected (MakeUnknownState f) d
    · simp [hrej, MergeEntry_of_AddRejected _ _ _ hrej, FindItem_append_of_none _ _ _ hf]
    · simp only [Option.getD_some, Option.getD_none, hrej, if_false]
      rw [FindItem_UpdateItem_self]

/-- Helper: the merge fold never touches keys absent from the results. -/
theorem UpdateCachedFold_ne (Now : Nat) (results : List (String × FFriendshipperState))
    (f : String) :
    ∀ (acc : StateCacheModel × List String), (∀ p ∈ results, p.1 ≠ f) →
      FindItem (results.foldl (UpdateCachedStep Now) acc).1 f = FindItem acc.1 f := by
  induction results with
  | nil => intro acc _; rfl
  | cons p rest ih =>
    intro acc hall
    rw [List.foldl_cons]
    rw [ih _ (fun q hq => hall q (List.mem_cons_of_mem p hq))]
    exact UpdateCachedStep_ne Now acc p f (hall p (List.mem_cons_self p rest))

/-- Helper: with unique result keys, the merge fold maps each result key
to the `MergeEntry` image of its found-or-created cached entry. -/
theorem UpdateCachedFold_self (Now : Nat) (results : List (String × FFriendshipperState))
    (f : String) (d : FFriendshipperState) :
    ∀ (acc : StateCacheModel × List String), (results.map Prod.fst).Nodup →
      FindItem results f = some d →
      FindItem (results.foldl (UpdateCachedStep Now) acc).1 f =
        some (MergeEntry ((FindItem acc.1 f).getD (MakeUnknownState f)) d Now) := by
  induction results with
  | nil => intro acc _ hfind; simp [FindItem] at hfind
  | cons p rest ih =>
    intro acc hnodup hfind
    obtain ⟨k, v⟩ := p
    rw [List.map_cons, List.nodup_cons] at hnodup
    by_cases hk : k = f
    · subst hk
      have hv : v = d := by
        simp [FindItem] at hfind
        exact hfind
      subst hv
      have hrest : ∀ q ∈ rest, q.1 ≠ k := by
        intro q hq hqk
        have hmem : q.1 ∈ rest.map Prod.fst := List.mem_map_of_mem Prod.fst hq
        rw [hqk] at hmem
        exact hnodup.1 hmem
      rw [List.foldl_cons, UpdateCachedFold_ne Now rest k _ hrest]
      exact UpdateCachedStep_self Now acc k v
    · have hfind2 : FindItem rest f = some d := by
        simpa [FindItem, hk] using hfind
      rw [List.foldl_cons]
      rw [ih _ hnodup.2 hfind2]
      rw [UpdateCachedStep_ne Now acc (k, v) f hk]

/-- Helper: `UpdateCachedStates` leaves the cache untouched at any key its
result map does not mention — a file absent from a command's deltas
retains its prior cached state. -/
theorem UpdateCachedStates_untouched (cache : StateCacheModel) (ignore : List String)
    (results : List (String × FFriendshipperState)) (Now : Nat) (f : String)
    (h : ∀ p ∈ results, p.1 ≠ f) :
    FindItem (UpdateCachedStates cache ignore results Now).1 f = FindItem cache f := by
  unfold UpdateCachedStates
  by_cases he : results.isEmpty
  · simp [he]
  · simp only [he, Bool.false_eq_true, if_false]
    exact UpdateCachedFold_ne Now results f (cache, ignore) h

/-- Helper: `UpdateCachedStates` at a key of its (uniquely-keyed) result
map: the cached (or lazily created fully-unknown) entry is replaced by its
`MergeEntry` image. -/
theorem UpdateCachedStates_lookup (cache : StateCacheModel) (ignore : List String)
    (results : List (String × FFriendshipperState)) (Now : Nat) (f : String)
    (d : FFriendshipperState) (hnodup : (results.map Prod.fst).Nodup)
    (hfind : FindItem results f = some d) :
    FindItem (UpdateCachedStates cache ignore results Now).1 f =
      some (MergeEntry ((FindItem cache f).getD (MakeUnknownState f)) d Now) := by
  unfold UpdateCachedStates
  have hne : results.isEmpty = false := by
    cases results with
    | nil => simp [FindItem] at hfind
    | cons q rest => rfl
  simp only [hne, Bool.false_eq_true, if_false]
  exact UpdateCachedFold_self Now results f d (cache, ignore) hnodup hfind

/-- `FString::EndsWith` on file paths (suffix match on the character
sequence). -/
def StringEndsWith (s suffix2 : String) : Bool :=
  List.isSuffixOf suffix2.data s.data

/-- `FriendshipperSourceControlUtils::IsFileLFSLockable` — a file is
lockable when it ends with one of the probed lockable extensions
(`LockableTypes`, passed explicitly here instead of the module-level
static). -/
def IsFileLFSLockable (LockableTypes : List String) (InFile : String) : Bool :=
  LockableTypes.any (fun t => StringEndsWith InFile t)

/-- One iteration of `CollectNewStates`' loop: `FindOrAdd` the file (the
default being the freshly-built `NewState`), then overwrite each
non-`Unset` axis with `NewState`'s value. -/
def CollectNewStatesStep (NewState : FFriendshipperState)
    (OutResults : List (String × FFriendshipperState)) (File : String) :
    List (String × FFriendshipperState) :=
  let State := (FindItem OutResults File).getD NewState
  let OutResults :=
    match FindItem OutResults File with
    | some _ => OutResults
    | none => OutResults ++ [(File, NewState)]
  let State := if NewState.FileState ≠ EFileState.Unset then
      { State with FileState := NewState.FileState } else State
  let State := if NewState.TreeState ≠ ETreeState.Unset then
      { State with TreeState := NewState.TreeState } else State
  let State := if NewState.LockState ≠ ELockState.Unset then
      { State with LockState := NewState.LockState } else State
  let State := if NewState.RemoteState ≠ ERemoteState.Unset then
      { State with RemoteState := NewState.RemoteState } else State
  UpdateItem OutResults File State

/-- `FriendshipperSourceControlUtils::CollectNewStates` (file-list
overload): build the delta `NewState` from the given axis values (the
string fields default-construct empty) and fold it over the files;
returns `false` on an empty file list. -/
def CollectNewStates (InFiles : List String)
    (OutResults : List (String × FFriendshipperState)) (FileState : EFileState)
    (TreeState : ETreeState) (LockState : ELockState) (RemoteState : ERemoteState) :
    List (String × FFriendshipperState) × Bool :=
  if InFiles.isEmpty then (OutResults, false)
  else
    let NewState : FFriendshipperState :=
      { FileState := FileState, TreeState := TreeState, LockState := LockState,
        RemoteState := RemoteState, LockUser := "", HeadBranch := "" }
    (InFiles.foldl (CollectNewStatesStep NewState) OutResults, true)

/-- One batch failure entry of the backend's lock response
(`FLockFailure`: path and reason). -/
structure FLockFailure where
  Path : String
  Reason : String
deriving DecidableEq, Repr

/-- The per-failure message `RequestLockOperation` appends to
`OutFailureMessages` for a lock operation. -/
def LockFailureMessage (Failure : FLockFailure) : String :=
  "Failed to " ++ "lock" ++ " asset " ++ Failure.Path ++ ": " ++ Failure.Reason

/-- The body of `LockFiles`' final loop: record the provider's lock user
on a collected state (`State.Value.LockUser = LockUser`). -/
def SetLockUser (u : String) (s : FFriendshipperState) : FFriendshipperState :=
  { s with LockUser := u }

/-- What the static `LockFiles` helper (operations translation unit)
produces: the returned flag, the worker's `States` delta map, the
command's error-message list, and the relative file list sent to the
backend lock call. -/
structure LockFilesResult where
  bSuccess : Bool
  States : List (String × FFriendshipperState)
  ErrorMessages : List String
  SentFiles : List String
deriving Repr

/-- The parsed ingredients of the backend's reply to the lock request, as
`RequestLockOperation` inspects them: whether `ProcessRequestAndWait`
succeeded, whether `Request->GetResponse()` was non-null, the HTTP
response code, whether the JSON body parsed into an `FLockResponse`, and
the parsed batch failures. -/
structure LockRequestOutcome where
  transportOk : Bool
  hasResponse : Bool
  ResponseCode : Nat
  parseOk : Bool
  Failures : List FLockFailure

/-- `RequestLockOperation` (client translation unit) for the lock
operation: a transport failure or a non-200 response returns `false`; a
parsed 200 response copies each batch failure's path into the failed-file
list and renders one failure message per failure, then returns `false`
whenever there was at least one failure ("In the future we can return
true if there was a partial success"); every other path — a null response
object, or a 200 body that does not parse — returns `true`. -/
def RequestLockOperation (o : LockRequestOutcome)
    (OutFailedFiles OutFailureMessages : List String) : Bool × List String × List String :=
  if o.transportOk = false then (false, OutFailedFiles, OutFailureMessages)
  else if o.hasResponse then
    if o.ResponseCode = 200 then
      if o.parseOk then
        let OutFailedFiles2 := OutFailedFiles ++ o.Failures.map (fun fl => fl.Path)
        let OutFailureMessages2 := OutFailureMessages ++ o.Failures.map LockFailureMessage
        if 0 < o.Failures.length then (false, OutFailedFiles2, OutFailureMessages2)
        else (true, OutFailedFiles2, OutFailureMessages2)
      else (true, OutFailedFiles, OutFailureMessages)
    else (false, OutFailedFiles, OutFailureMessages)
  else (true, OutFailedFiles, OutFailureMessages)

/-- The static `LockFiles` helper (operations translation unit), composed
with the client call it makes: `Client.LockFiles` forwards to
`RequestLockOperation`, whose reply ingredients are the `o` parameter
(the client's lock bookkeeping on its cached repo status is a side effect
nothing here reads). Control flow as in the source: empty or
non-lockable-only file lists return `true` without calling the backend;
otherwise the lockable files are filtered, relativized
(`RelativeFilenames` abstracted as `rel`) and sent; every lockable file
not suffix-matched by a failed relative path is collected as succeeded;
when the client call returned `true` the succeeded files are recorded
`Locked` via `CollectNewStates` and every collected state gets the
provider's `LockUser`. -/
def LockFiles (LockableTypes : List String) (rel : String → String) (LockUser : String)
    (o : LockRequestOutcome) (Files : List String)
    (States : List (String × FFriendshipperState)) (ErrorMessages : List String) :
    LockFilesResult :=
  if Files.isEmpty then ⟨true, States, ErrorMessages, []⟩
  else
    let LockableFiles := Files.filter (IsFileLFSLockable LockableTypes)
    if LockableFiles.isEmpty then ⟨true, States, ErrorMessages, []⟩
    else
      let LockableRelativeFiles := LockableFiles.map rel
      let r := RequestLockOperation o [] ErrorMessages
      let bSuccess := r.1
      let FailedRelativeFiles := r.2.1
      let ErrorMessages2 := r.2.2
      let SucceededFiles := LockableFiles.filter
        (fun f => ! FailedRelativeFiles.any (fun fr => StringEndsWith f fr))
      if bSuccess then
        let States1 := (CollectNewStates SucceededFiles States EFileState.Unset
          ETreeState.Unset ELockState.Locked ERemoteState.Unset).1
        let States2 := States1.map (fun p => (p.1, SetLockUser LockUser p.2))
        ⟨true, States2, ErrorMessages2, LockableRelativeFiles⟩
      else
        ⟨false, States, ErrorMessages2, LockableRelativeFiles⟩

/-- Helper: a `CollectNewStates` iteration leaves other keys' lookups
unchanged. -/
theorem CollectNewStatesStep_ne (NewState : FFriendshipperState)
    (acc : List (String × FFriendshipperState)) (g f : String) (h : g ≠ f) :
    FindItem (CollectNewStatesStep NewState acc g) f = FindItem acc f := by
  unfold CollectNewStatesStep
  cases hg : FindItem acc g with
  | some e => simp only [hg]; rw [FindItem_UpdateItem_ne _ _ _ _ h]
  | none =>
    simp only [hg]
    rw [FindItem_UpdateItem_ne _ _ _ _ h, FindItem_append_ne _ _ _ _ h]

/-- Helper: a `CollectNewStates` iteration for a delta whose lock axis is
`Locked` leaves its own file mapped to a `Locked` entry. -/
theorem CollectNewStatesStep_self_locked (NewState : FFriendshipperState)
    (h : NewState.LockState = ELockState.Locked)
    (acc : List (String × FFriendshipperState)) (f : String) :
    ∃ e, FindItem (CollectNewStatesStep NewState acc f) f = some e ∧
      e.LockState = ELockState.Locked := by
  cases hg : FindItem acc f with
  | some e0 =>
    simp only [CollectNewStatesStep, hg, Option.getD_some]
    split_ifs <;> refine ⟨_, FindItem_UpdateItem_self _ _ _, ?_⟩ <;> simp_all
  | none =>
    simp only [CollectNewStatesStep, hg, Option.getD_none]
    split_ifs <;> refine ⟨_, FindItem_UpdateItem_self _ _ _, ?_⟩ <;> simp_all

/-- Helper: the lock-delta fold preserves "mapped to a Locked entry". -/
theorem CollectNewStatesFold_preserve_locked (NewState : FFriendshipperState)
    (h : NewState.LockState = ELockState.Locked) (l : List String) (f : String) :
    ∀ acc, (∃ e, FindItem acc f = some e ∧ e.LockState = ELockState.Locked) →
      ∃ e, FindItem (l.foldl (CollectNewStatesStep NewState) acc) f = some e ∧
        e.LockState = ELockState.Locked := by
  induction l with
  | nil => intro acc hacc; exact hacc
  | cons g rest ih =>
    intro acc hacc
    rw [List.foldl_cons]
    by_cases hg : g = f
    · subst hg
      exact ih _ (CollectNewStatesStep_self_locked NewState h acc g)
    · exact ih _ (by rw [CollectNewStatesStep_ne _ _ _ _ hg]; exact hacc)

/-- Helper: every file of the fold's list ends mapped to a Locked entry. -/
theorem CollectNewStatesFold_locked (NewState : FFriendshipperState)
    (h : NewState.LockState = ELockState.Locked) (l : List String) (f : String)
    (hf : f ∈ l) :
    ∀ acc, ∃ e, FindItem (l.foldl (CollectNewStatesStep NewState) acc) f = some e ∧
      e.LockState = ELockState.Locked := by
  induction l with
  | nil => simp at hf
  | cons g rest ih =>
    intro acc
    rw [List.foldl_cons]
    by_cases hg : g = f
    · subst hg
      exact CollectNewStatesFold_preserve_locked NewState h rest g _
        (CollectNewStatesStep_self_locked NewState h acc g)
    · have hf2 : f ∈ rest := by
        cases hf with
        | head => exact absurd rfl hg
        | tail _ h2 => exact h2
      exact ih hf2 _

/-- Helper: the fold never creates entries for files outside its list. -/
theorem CollectNewStatesFold_ne (NewState : FFriendshipperState) (l : List String)
    (f : String) (hf : ∀ g ∈ l, g ≠ f) :
    ∀ acc, FindItem (l.foldl (CollectNewStatesStep NewState) acc) f = FindItem acc f := by
  induction l with
  | nil => intro acc; rfl
  | cons g rest ih =>
    intro acc
    rw [List.foldl_cons, ih (fun q hq => hf q (List.mem_cons_of_mem g hq))]
    exact CollectNewStatesStep_ne _ _ _ _ (hf g (List.mem_cons_self g rest))

/-- Helper: lookups commute with mapping a function over the values. -/
theorem FindItem_map_value {α β : Type} (l : List (String × α)) (u : α → β) (f : String) :
    FindItem (l.map (fun p => (p.1, u p.2))) f = Option.map u (FindItem l f) := by
  induction l with
  | nil => rfl
  | cons p rest ih =>
    obtain ⟨a, b⟩ := p
    by_cases hp : a = f
    · simp [FindItem, hp]
    · simpa [FindItem, hp] using ih

/-- Helper: the client's lock call succeeds only with an empty
failed-file list — `RequestLockOperation` returns `false` on any reported
failure, so success alongside a partial failure is impossible. -/
theorem RequestLockOperation_success_no_failures (o : LockRequestOutcome)
    (msgs : List String) :
    (RequestLockOperation o [] msgs).1 = true → (RequestLockOperation o [] msgs).2.1 = [] := by
  unfold RequestLockOperation
  split_ifs with h1 h2 h3 h4 h5 <;> intro h
  · simp at h
  · simp at h
  · have hempty : o.Failures = [] := List.length_eq_zero.mp (by omega)
    simp [hempty]
  · rfl
  · simp at h
  · rfl

/-- Helper: on a parsed 200 reply, the client renders one failure message
per batch failure into the command's failure messages, whatever its
returned flag. -/
theorem RequestLockOperation_parsed_messages (o : LockRequestOutcome) (msgs : List String)
    (ht : o.transportOk = true) (hr : o.hasResponse = true)
    (hc : o.ResponseCode = 200) (hp : o.parseOk = true) :
    (RequestLockOperation o [] msgs).2.2 = msgs ++ o.Failures.map LockFailureMessage := by
  unfold RequestLockOperation
  rw [ht, hr, hc, hp]
  simp only [Bool.true_eq_false, if_false, if_true]
  split_ifs <;> rfl

/-- The backend reply of the spec's partial-failure scenario: a parsed
200 response whose batch reports one failure, for `B`. -/
def LockOutcomeBFails : LockRequestOutcome :=
  { transportOk := true
    hasResponse := true
    ResponseCode := 200
    parseOk := true
    Failures := [⟨"B.uasset", "locked by bob"⟩] }

/-- **C5 (counterexample).** At the spec scenario's input — CheckOut of
`[A, B]` where the backend's reply names `B` as the one failure — the
program does not mark `A` Locked: `RequestLockOperation` turns the
partial failure into an overall `false`, so `LockFiles` skips
`CollectNewStates` entirely. The delta map comes back empty (no `Locked`
record for `A`) and the command fails, though `B`'s failure message is
reported — contradicting the claim, which requires `A` to be marked
Locked whenever `A` is not named in the returned failure list. -/
theorem LockFiles_partial_failure_counterexample :
    (LockFiles [".uasset"] (fun s => s) "alice" LockOutcomeBFails
      ["/repo/A.uasset", "/repo/B.uasset"] [] []).bSuccess = false ∧
    FindItem (LockFiles [".uasset"] (fun s => s) "alice" LockOutcomeBFails
      ["/repo/A.uasset", "/repo/B.uasset"] [] []).States "/repo/A.uasset" = none ∧
    (LockFiles [".uasset"] (fun s => s) "alice" LockOutcomeBFails
      ["/repo/A.uasset", "/repo/B.uasset"] [] []).ErrorMessages =
      ["Failed to lock asset B.uasset: locked by bob"] := by
  refine ⟨rfl, rfl, rfl⟩

/-- **C5 (amended).** For the lock helper shared by the lock-class
workers (CheckOut, MarkForAdd, Delete's locking phase, Copy's destination
lock), run over a file list with a fresh `States` map (as each worker
does): only files with a lockable extension are sent to the backend lock
call; the backend call succeeds only when its returned failure list is
empty (a partial failure fails the whole call), and on success every
lockable file is marked `Locked` with the lock owner's identity recorded;
when the call fails, each parsed failure is still rendered into the
command's failure messages, but no file is marked `Locked`: the delta map
stays empty — every file, failed or not, retains its prior cached state —
and the lock-class command fails. -/
theorem LockFiles_lock_semantics (LockableTypes : List String) (rel : String → String)
    (LockUser : String) (o : LockRequestOutcome) (Files : List String)
    (ErrorMessages : List String) (f : String)
    (hmem : f ∈ Files) (hlock : IsFileLFSLockable LockableTypes f = true) :
    (LockFiles LockableTypes rel LockUser o Files [] ErrorMessages).SentFiles =
      (Files.filter (IsFileLFSLockable LockableTypes)).map rel ∧
    ((RequestLockOperation o [] ErrorMessages).1 = true →
      (RequestLockOperation o [] ErrorMessages).2.1 = []) ∧
    ((LockFiles LockableTypes rel LockUser o Files [] ErrorMessages).bSuccess = true →
      ∃ e, FindItem (LockFiles LockableTypes rel LockUser o Files []
          ErrorMessages).States f = some e ∧
        e.LockState = ELockState.Locked ∧ e.LockUser = LockUser) ∧
    ((LockFiles LockableTypes rel LockUser o Files [] ErrorMessages).bSuccess = false →
      (LockFiles LockableTypes rel LockUser o Files [] ErrorMessages).States = [] ∧
      ∀ (g : String) (cache : StateCacheModel) (ignore : List String) (Now : Nat),
        FindItem (UpdateCachedStates cache ignore
          (LockFiles LockableTypes rel LockUser o Files [] ErrorMessages).States Now).1 g =
          FindItem cache g) ∧
    (o.transportOk = true → o.hasResponse = true → o.ResponseCode = 200 → o.parseOk = true →
      (LockFiles LockableTypes rel LockUser o Files [] ErrorMessages).ErrorMessages =
        ErrorMessages ++ o.Failures.map LockFailureMessage) := by
  have hfe : Files.isEmpty = false := by
    cases Files with
    | nil => simp at hmem
    | cons a t => rfl
  have hfl : f ∈ Files.filter (IsFileLFSLockable LockableTypes) :=
    List.mem_filter.mpr ⟨hmem, hlock⟩
  have hlne : (Files.filter (IsFileLFSLockable LockableTypes)).isEmpty = false := by
    cases hft : Files.filter (IsFileLFSLockable LockableTypes) with
    | nil => rw [hft] at hfl; simp at hfl
    | cons a t => rfl
  unfold LockFiles
  simp only [hfe, Bool.false_eq_true, if_false, hlne, if_true]
  by_cases hb : (RequestLockOperation o [] ErrorMessages).1 = true
  · rw [if_pos hb]
    have hfailed : (RequestLockOperation o [] ErrorMessages).2.1 = [] :=
      RequestLockOperation_success_no_failures o ErrorMessages hb
    refine ⟨rfl, fun _ => hfailed, fun _ => ?_,
      fun hfalse => Bool.noConfusion (show true = false from hfalse),
      fun ht hr hc hp => RequestLockOperation_parsed_messages o ErrorMessages ht hr hc hp⟩
    rw [hfailed]
    have hsucc : f ∈ (Files.filter (IsFileLFSLockable LockableTypes)).filter
        (fun g => ! ([] : List String).any (fun fr => StringEndsWith g fr)) :=
      List.mem_filter.mpr ⟨hfl, rfl⟩
    have hsne : ((Files.filter (IsFileLFSLockable LockableTypes)).filter
        (fun g => ! ([] : List String).any (fun fr => StringEndsWith g fr))).isEmpty
          = false := by
      cases hft : (Files.filter (IsFileLFSLockable LockableTypes)).filter
          (fun g => ! ([] : List String).any (fun fr => StringEndsWith g fr)) with
      | nil => rw [hft] at hsucc; simp at hsucc
      | cons a t => rfl
    simp only [CollectNewStates, hsne, Bool.false_eq_true, if_false]
    obtain ⟨e, he, helock⟩ := CollectNewStatesFold_locked
      { FileState := EFileState.Unset, TreeState := ETreeState.Unset,
        LockState := ELockState.Locked, RemoteState := ERemoteState.Unset,
        LockUser := "", HeadBranch := "" } rfl _ f hsucc []
    exact ⟨SetLockUser LockUser e, by rw [FindItem_map_value, he]; rfl, helock, rfl⟩
  · rw [if_neg hb]
    exact ⟨rfl, fun hs => RequestLockOperation_success_no_failures o ErrorMessages hs,
      fun htrue => Bool.noConfusion (show false = true from htrue),
      fun _ => ⟨rfl, fun g cache ignore Now => rfl⟩,
      fun ht hr hc hp => RequestLockOperation_parsed_messages o ErrorMessages ht hr hc hp⟩

/-- The backend reply of a clean lock: a parsed 200 with no failures. -/
def LockOutcomeClean : LockRequestOutcome :=
  { transportOk := true
    hasResponse := true
    ResponseCode := 200
    parseOk := true
    Failures := [] }

/-- Witness for the amended C5 at concrete inputs: on a clean backend
reply `A` is recorded Locked with the owner, and on the partial-failure
reply the delta map is empty (every file keeps its prior cached state). -/
theorem LockFiles_lock_semantics_witness :
    (∃ e, FindItem (LockFiles [".uasset"] (fun s => s) "alice" LockOutcomeClean
        ["/repo/A.uasset", "/repo/B.uasset"] [] []).States "/repo/A.uasset" = some e ∧
      e.LockState = ELockState.Locked ∧ e.LockUser = "alice") ∧
    (LockFiles [".uasset"] (fun s => s) "alice" LockOutcomeBFails
      ["/repo/A.uasset", "/repo/B.uasset"] [] []).States = [] := by
  have hclean := LockFiles_lock_semantics [".uasset"] (fun s => s) "alice" LockOutcomeClean
    ["/repo/A.uasset", "/repo/B.uasset"] [] "/repo/A.uasset" (by decide) (by decide)
  have hfail := LockFiles_lock_semantics [".uasset"] (fun s => s) "alice" LockOutcomeBFails
    ["/repo/A.uasset", "/repo/B.uasset"] [] "/repo/A.uasset" (by decide) (by decide)
  exact ⟨hclean.2.2.1 (by rfl), (hfail.2.2.2.1 (by rfl)).1⟩

/-- `FFriendshipperSourceControlProvider::RemoveFileFromCache` —
`TMap::Remove` deletes the entries with the key and returns how many; the
method returns whether that number is positive. -/
def RemoveFileFromCache (StateCache : StateCacheModel) (Filename : String) :
    StateCacheModel × Bool :=
  let kept := StateCache.filter (fun p => p.1 ≠ Filename)
  (kept, decide (0 < StateCache.length - kept.length))

/-- The cache effect of `GetState(InCommand.Files, LocalStates,
EStateCacheUsage::Use)`: each file's entry is fetched via
`GetStateInternal`, which caches a fully-unknown entry when absent. -/
def GetStateEnsure (StateCache : StateCacheModel) (Files : List String) : StateCacheModel :=
  Files.foldl
    (fun c f =>
      match FindItem c f with
      | some _ => c
      | none => c ++ [(f, MakeUnknownState f)])
    StateCache

/-- One entry of the repo status's modified/untracked file lists
(`FStatusFileState`): a repo-relative path. -/
structure FStatusFileState where
  Path : String
deriving DecidableEq, Repr

/-- One LFS lock of the repo status (`FLfsLock`): its path and the
owner's name. -/
structure FLfsLock where
  Path : String
  Owner : String
deriving DecidableEq, Repr

/-- The backend's repository-status snapshot (`FRepoStatus`) — the fields
`ParseFileStatusResult` and `CheckRemote` read. -/
structure FRepoStatus where
  ModifiedFiles : List FStatusFileState
  UntrackedFiles : List FStatusFileState
  LocksOurs : List FLfsLock
  LocksTheirs : List FLfsLock
  ModifiedUpstream : List String
  RemoteBranch : String
deriving DecidableEq, Repr

/-- `FString::StartsWith` on file paths. -/
def StringStartsWith (s pre : String) : Bool :=
  List.isPrefixOf pre.data s.data

/-- The ambient inputs of the status parse that come from outside the
status snapshot: the repository root, the lockable-extension probe, the
provider's lock user, the filesystem existence check
(`FPaths::FileExists`), and the path conversions
(`ConvertRelativePathToFull` against the project directory for lock
paths; `FPaths::Combine` for upstream paths). -/
structure StatusEnv where
  InRepositoryRoot : String
  LockableTypes : List String
  LfsUserName : String
  FileExistsFn : String → Bool
  LockAbsPath : String → String
  CombinePath : String → String → String

/-- The per-file body of `ParseFileStatusResult` (second revision, the
one the 4-argument `RunUpdateStatus` uses): construct the entry with its
file/tree/lock axes reset to `Unset`, mark `Working`/`Untracked` from the
status lists (suffix match, modified list first), then `Deleted` for a
listed file missing on disk, or `Unknown` plus `Unmodified`/`NotInRepo`
for an unlisted file according to on-disk existence; finally resolve the
lock axis against the ours-then-theirs lock table for lockable files and
`Unlockable` otherwise. -/
def ParseOneFileStatus (env : StatusEnv) (InRepoStatus : FRepoStatus) (File : String) :
    FFriendshipperSourceControlState :=
  let base := MakeUnknownState File
  let s0 := { base.State with
    FileState := EFileState.Unset
    TreeState := ETreeState.Unset
    LockState := ELockState.Unset }
  let foundModified := InRepoStatus.ModifiedFiles.any
    (fun st => StringEndsWith File st.Path)
  let foundUntracked := InRepoStatus.UntrackedFiles.any
    (fun st => StringEndsWith File st.Path)
  let bFound := foundModified || foundUntracked
  let s1 :=
    if foundModified then { s0 with TreeState := ETreeState.Working }
    else if foundUntracked then { s0 with TreeState := ETreeState.Untracked }
    else s0
  let bFileExists := env.FileExistsFn File
  let s2 :=
    if bFound then
      if bFileExists = false then { s1 with FileState := EFileState.Deleted } else s1
    else if bFileExists then
      { s1 with FileState := EFileState.Unknown, TreeState := ETreeState.Unmodified }
    else
      { s1 with FileState := EFileState.Unknown, TreeState := ETreeState.NotInRepo }
  let s3 :=
    if IsFileLFSLockable env.LockableTypes File then
      let LockedFiles := (InRepoStatus.LocksOurs ++ InRepoStatus.LocksTheirs).foldl
        (fun acc lk => UpdateItem acc (env.LockAbsPath lk.Path) lk.Owner) []
      match FindItem LockedFiles File with
      | some owner =>
        { s2 with
            LockUser := owner
            LockState := if env.LfsUserName = owner then ELockState.Locked
                         else ELockState.LockedOther }
      | none => { s2 with LockState := ELockState.NotLocked }
    else { s2 with LockState := ELockState.Unlockable }
  { base with State := s3 }

/-- `ParseFileStatusResult` (second revision): one entry per queried file
— the result always covers every input file. The input is a `TSet` of
absolute paths; its uniqueness travels as a `Nodup` hypothesis where it
matters. -/
def ParseFileStatusResult (env : StatusEnv) (InRepoStatus : FRepoStatus)
    (InFiles : List String) : List (String × FFriendshipperSourceControlState) :=
  InFiles.map (fun File => (File, ParseOneFileStatus env InRepoStatus File))

/-- The loop body of `CheckRemote`: when the upstream-modified path
(joined to the repository root) has an entry, set
`RemoteState = NotAtHead` and record the head branch. -/
def CheckRemoteStep (env : StatusEnv) (InStatus : FRepoStatus)
    (acc : List (String × FFriendshipperSourceControlState)) (Modified : String) :
    List (String × FFriendshipperSourceControlState) :=
  match FindItem acc (env.CombinePath env.InRepositoryRoot Modified) with
  | some FileState =>
    UpdateItem acc (env.CombinePath env.InRepositoryRoot Modified)
      { FileState with State := { FileState.State with
          RemoteState := ERemoteState.NotAtHead
          HeadBranch := InStatus.RemoteBranch } }
  | none => acc

/-- `CheckRemote`: overlay the upstream-modified markers on the parsed
states. -/
def CheckRemote (env : StatusEnv) (InStatus : FRepoStatus)
    (OutStates : List (String × FFriendshipperSourceControlState)) :
    List (String × FFriendshipperSourceControlState) :=
  InStatus.ModifiedUpstream.foldl (CheckRemoteStep env InStatus) OutStates

/-- `RunUpdateStatus` (second revision, the overload the CheckIn worker
calls): files outside the repository are dropped for the emptiness check;
when the backend status fetch fails (`statusValid`, the flag
`Client.GetStatus` returns), the out map stays empty and the call returns
`false`; on success `ParseFileStatusResult` emits an entry for every
queried file (file identities being absolute normalized paths, the
project-directory conversion is the identity on them) and `CheckRemote`
overlays the upstream markers. -/
def RunUpdateStatus (env : StatusEnv) (InFiles : List String) (statusValid : Bool)
    (RepoStatus : FRepoStatus) :
    List (String × FFriendshipperSourceControlState) × Bool :=
  let RepoFiles := InFiles.filter (fun f => StringStartsWith f env.InRepositoryRoot)
  if RepoFiles.isEmpty then ([], false)
  else if statusValid then
    (CheckRemote env RepoStatus (ParseFileStatusResult env RepoStatus InFiles), true)
  else ([], false)

/-- The post-submit cache effect of `FFriendshipperCheckInWorker::Execute`
on a successful `Client.Submit`, composed with the drain-time merge of the
worker's collected states: read the local states of the submitted files
(caching missing ones as fully unknown), remove from the cache every
submitted file whose state `IsDeleted`, run the follow-up status re-fetch
restricted to the submitted files, and merge its `.State` projections
(what `CollectNewStates` copies) into the cache via `UpdateCachedStates`
— nothing is collected when the re-fetch fails. -/
def CheckInPostSubmit (StateCache : StateCacheModel) (ignore : List String)
    (Files : List String) (Now : Nat) (env : StatusEnv) (statusValid : Bool)
    (RepoStatus : FRepoStatus) : StateCacheModel × List String × Bool :=
  let cache1 := GetStateEnsure StateCache Files
  let cache2 := Files.foldl
    (fun c f =>
      match FindItem cache1 f with
      | some e => if IsDeleted e then (RemoveFileFromCache c f).1 else c
      | none => c)
    cache1
  let r := RunUpdateStatus env Files statusValid RepoStatus
  let States := if r.2 then r.1.map (fun p => (p.1, p.2.State)) else []
  UpdateCachedStates cache2 ignore States Now

/-- Helper: one `GetStateInternal` access finds or creates its key and
leaves every other key's lookup unchanged. -/
theorem EnsureStep_lookup (c : StateCacheModel) (g f : String) :
    FindItem (match FindItem c g with
      | some _ => c
      | none => c ++ [(g, MakeUnknownState g)]) f =
    (if g = f then some ((FindItem c f).getD (MakeUnknownState f)) else FindItem c f) := by
  cases hg : FindItem c g with
  | some e =>
    by_cases hgf : g = f
    · subst hgf
      rw [if_pos rfl, hg]
      rfl
    · rw [if_neg hgf]
  | none =>
    by_cases hgf : g = f
    · subst hgf
      rw [if_pos rfl, hg, FindItem_append_of_none c g _ hg]
      rfl
    · rw [if_neg hgf]
      exact FindItem_append_ne c g f _ hgf

/-- Helper: an entry already present keeps its value through
`GetStateEnsure`. -/
theorem GetStateEnsure_some (Files : List String) (f : String) :
    ∀ (c : StateCacheModel) (v : FFriendshipperSourceControlState),
      FindItem c f = some v → FindItem (GetStateEnsure c Files) f = some v := by
  induction Files with
  | nil => intro c v hv; exact hv
  | cons g rest ih =>
    intro c v hv
    rw [show GetStateEnsure c (g :: rest) =
        GetStateEnsure (match FindItem c g with
          | some _ => c
          | none => c ++ [(g, MakeUnknownState g)]) rest from rfl]
    refine ih _ v ?_
    rw [EnsureStep_lookup]
    by_cases hgf : g = f
    · rw [if_pos hgf, hv]
      rfl
    · rw [if_neg hgf]
      exact hv

/-- Helper: `GetStateEnsure` maps every listed file to its present entry,
or to a fresh fully-unknown entry. -/
theorem GetStateEnsure_mem (Files : List String) (f : String) :
    ∀ (c : StateCacheModel), f ∈ Files →
      FindItem (GetStateEnsure c Files) f =
        some ((FindItem c f).getD (MakeUnknownState f)) := by
  induction Files with
  | nil => intro c h; exact absurd h (List.not_mem_nil f)
  | cons g rest ih =>
    intro c hmem
    rw [show GetStateEnsure c (g :: rest) =
        GetStateEnsure (match FindItem c g with
          | some _ => c
          | none => c ++ [(g, MakeUnknownState g)]) rest from rfl]
    by_cases hgf : g = f
    · refine GetStateEnsure_some rest f _ _ ?_
      rw [EnsureStep_lookup, if_pos hgf]
    · have hmem2 : f ∈ rest := by
        cases hmem with
        | head => exact absurd rfl hgf
        | tail _ h2 => exact h2
      rw [ih _ hmem2, EnsureStep_lookup, if_neg hgf]

/-- Helper: removing one key from the cache leaves other lookups
unchanged. -/
theorem FindItem_filter_key_ne {α : Type} (l : List (String × α)) (g f : String)
    (h : g ≠ f) :
    FindItem (l.filter (fun p => p.1 ≠ g)) f = FindItem l f := by
  induction l with
  | nil => rfl
  | cons p rest ih =>
    obtain ⟨a, b⟩ := p
    simp only [List.filter_cons]
    by_cases hag : a = g
    · rw [if_neg (by simp [hag])]
      have haf : ¬ a = f := by rw [hag]; exact h
      rw [ih, show FindItem ((a, b) :: rest) f = FindItem rest f from by
        simp [FindItem, haf]]
    · rw [if_pos (by simp [hag])]
      by_cases haf : a = f
      · simp [FindItem, haf]
      · simp only [FindItem, haf, if_false]
        exact ih

/-- Helper: removing a key from the cache removes its lookup. -/
theorem FindItem_filter_key_self {α : Type} (l : List (String × α)) (g : String) :
    FindItem (l.filter (fun p => p.1 ≠ g)) g = none := by
  rw [FindItem_eq_none_iff]
  intro p hp
  simpa using List.of_mem_filter hp

/-- Helper: an absent key stays absent under any cache filtering. -/
theorem FindItem_filter_of_none {α : Type} (l : List (String × α)) (q : String × α → Bool)
    (f : String) (h : FindItem l f = none) :
    FindItem (l.filter q) f = none := by
  rw [FindItem_eq_none_iff] at h ⊢
  exact fun p hp => h p (List.mem_of_mem_filter hp)

/-- Helper: one removal-loop iteration touches only its own file's key. -/
theorem RemoveDeletedStep_ne (cache1 c : StateCacheModel) (g f : String) (h : g ≠ f) :
    FindItem (match FindItem cache1 g with
      | some e => if IsDeleted e then (RemoveFileFromCache c g).1 else c
      | none => c) f = FindItem c f := by
  cases hg : FindItem cache1 g with
  | some e =>
    by_cases hd : IsDeleted e
    · simp only [hd, if_true]
      exact FindItem_filter_key_ne c g f h
    · simp only [hd, if_false]
  | none => rfl

/-- Helper: one removal-loop iteration keeps absent keys absent. -/
theorem RemoveDeletedStep_none (cache1 c : StateCacheModel) (g f : String)
    (h : FindItem c f = none) :
    FindItem (match FindItem cache1 g with
      | some e => if IsDeleted e then (RemoveFileFromCache c g).1 else c
      | none => c) f = none := by
  cases hg : FindItem cache1 g with
  | some e =>
    by_cases hd : IsDeleted e
    · simp only [hd, if_true]
      exact FindItem_filter_of_none c _ f h
    · simp only [hd, if_false]
      exact h
  | none => exact h

/-- Helper: the removal loop keeps absent keys absent. -/
theorem RemoveDeletedFold_none (cache1 : StateCacheModel) (Files : List String) (f : String) :
    ∀ (c : StateCacheModel), FindItem c f = none →
      FindItem (Files.foldl (fun c g =>
        match FindItem cache1 g with
        | some e => if IsDeleted e then (RemoveFileFromCache c g).1 else c
        | none => c) c) f = none := by
  induction Files with
  | nil => intro c h; exact h
  | cons g rest ih =>
    intro c h
    rw [List.foldl_cons]
    exact ih _ (RemoveDeletedStep_none cache1 c g f h)

/-- Helper: the removal loop removes every listed file whose fetched state
is deleted. -/
theorem RemoveDeletedFold_deleted (cache1 : StateCacheModel) (Files : List String)
    (f : String) (e : FFriendshipperSourceControlState) (he : FindItem cache1 f = some e)
    (hd : IsDeleted e) :
    ∀ (c : StateCacheModel), f ∈ Files →
      FindItem (Files.foldl (fun c g =>
        match FindItem cache1 g with
        | some e => if IsDeleted e then (RemoveFileFromCache c g).1 else c
        | none => c) c) f = none := by
  induction Files with
  | nil => intro c h; exact absurd h (List.not_mem_nil f)
  | cons g rest ih =>
    intro c hmem
    rw [List.foldl_cons]
    by_cases hgf : g = f
    · subst hgf
      refine RemoveDeletedFold_none cache1 rest g _ ?_
      rw [he]
      simp only [hd, if_true]
      exact FindItem_filter_key_self c g
    · have hmem2 : f ∈ rest := by
        cases hmem with
        | head => exact absurd rfl hgf
        | tail _ h2 => exact h2
      exact ih _ hmem2

/-- Helper: the removal loop leaves non-deleted files' entries alone. -/
theorem RemoveDeletedFold_keep (cache1 : StateCacheModel) (Files : List String)
    (f : String) (hk : ∀ e, FindItem cache1 f = some e → ¬ IsDeleted e) :
    ∀ (c : StateCacheModel),
      FindItem (Files.foldl (fun c g =>
        match FindItem cache1 g with
        | some e => if IsDeleted e then (RemoveFileFromCache c g).1 else c
        | none => c) c) f = FindItem c f := by
  induction Files with
  | nil => intro c; rfl
  | cons g rest ih =>
    intro c
    rw [List.foldl_cons, ih]
    by_cases hgf : g = f
    · subst hgf
      cases hg : FindItem cache1 g with
      | some e => simp only [hk e hg, if_false]
      | none => rfl
    · exact RemoveDeletedStep_ne cache1 c g f hgf

/-- Helper: looking up a file in the per-file parse map yields its
computed state. -/
theorem FindItem_map_fn {α : Type} (vf : String → α) (l : List String) (f : String)
    (hf : f ∈ l) :
    FindItem (l.map (fun g => (g, vf g))) f = some (vf f) := by
  induction l with
  | nil => simp at hf
  | cons g rest ih =>
    by_cases hgf : g = f
    · subst hgf
      simp [FindItem]
    · have hf2 : f ∈ rest := by
        cases hf with
        | head => exact absurd rfl hgf
        | tail _ h2 => exact h2
      simpa [FindItem, hgf] using ih hf2

/-- Helper: replacing a present key's value preserves the key list. -/
theorem UpdateItem_keys_of_found {α : Type} (l : List (String × α)) (k : String) (v : α) :
    ∀ e, FindItem l k = some e → (UpdateItem l k v).map Prod.fst = l.map Prod.fst := by
  induction l with
  | nil => intro e he; simp [FindItem] at he
  | cons p rest ih =>
    intro e he
    obtain ⟨a, b⟩ := p
    by_cases hak : a = k
    · subst hak
      simp [UpdateItem]
    · simp only [FindItem, hak, if_false] at he
      simp [UpdateItem, hak, ih e he]

/-- Helper: a `CheckRemote` iteration touches only its own joined path. -/
theorem CheckRemoteStep_ne (env : StatusEnv) (InStatus : FRepoStatus)
    (acc : List (String × FFriendshipperSourceControlState)) (Modified : String)
    (f : String) (h : env.CombinePath env.InRepositoryRoot Modified ≠ f) :
    FindItem (CheckRemoteStep env InStatus acc Modified) f = FindItem acc f := by
  unfold CheckRemoteStep
  cases hfind : FindItem acc (env.CombinePath env.InRepositoryRoot Modified) with
  | some e =>
    simp only [hfind]
    exact FindItem_UpdateItem_ne _ _ _ _ h
  | none => simp only [hfind]

/-- Helper: a `CheckRemote` iteration never adds or removes entries. -/
theorem CheckRemoteStep_keys (env : StatusEnv) (InStatus : FRepoStatus)
    (acc : List (String × FFriendshipperSourceControlState)) (Modified : String) :
    (CheckRemoteStep env InStatus acc Modified).map Prod.fst = acc.map Prod.fst := by
  unfold CheckRemoteStep
  cases hfind : FindItem acc (env.CombinePath env.InRepositoryRoot Modified) with
  | some e =>
    simp only [hfind]
    exact UpdateItem_keys_of_found acc _ _ e hfind
  | none => simp only [hfind]

/-- Helper: `CheckRemote` leaves keys outside the joined
upstream-modified set untouched. -/
theorem CheckRemoteFold_ne (env : StatusEnv) (InStatus : FRepoStatus) (ms : List String)
    (f : String) (h : ∀ m ∈ ms, env.CombinePath env.InRepositoryRoot m ≠ f) :
    ∀ (acc : List (String × FFriendshipperSourceControlState)),
      FindItem (ms.foldl (CheckRemoteStep env InStatus) acc) f = FindItem acc f := by
  induction ms with
  | nil => intro acc; rfl
  | cons m rest ih =>
    intro acc
    rw [List.foldl_cons, ih (fun q hq => h q (List.mem_cons_of_mem m hq))]
    exact CheckRemoteStep_ne env InStatus acc m f (h m (List.mem_cons_self m rest))

/-- Helper: `CheckRemote` preserves the key list. -/
theorem CheckRemoteFold_keys (env : StatusEnv) (InStatus : FRepoStatus) (ms : List String) :
    ∀ (acc : List (String × FFriendshipperSourceControlState)),
      (ms.foldl (CheckRemoteStep env InStatus) acc).map Prod.fst = acc.map Prod.fst := by
  induction ms with
  | nil => intro acc; rfl
  | cons m rest ih =>
    intro acc
    rw [List.foldl_cons, ih, CheckRemoteStep_keys]

/-- Helper: projecting the `.State` of every entry commutes with
lookup. -/
theorem FindItem_map_state (l : List (String × FFriendshipperSourceControlState))
    (f : String) :
    FindItem (l.map (fun p => (p.1, p.2.State))) f =
      Option.map (fun e => e.State) (FindItem l f) := by
  induction l with
  | nil => rfl
  | cons p rest ih =>
    obtain ⟨a, b⟩ := p
    by_cases hp : a = f
    · simp [FindItem, hp]
    · simpa [FindItem, hp] using ih

/-- Helper: projecting the `.State` of every entry keeps the keys. -/
theorem FindItem_map_state_keys (l : List (String × FFriendshipperSourceControlState)) :
    (l.map (fun p => (p.1, p.2.State))).map Prod.fst = l.map Prod.fst := by
  induction l with
  | nil => rfl
  | cons p rest ih => simp [ih]

/-- Helper: the parse map's keys are exactly the queried files. -/
theorem ParseFileStatusResult_keys (env : StatusEnv) (InRepoStatus : FRepoStatus)
    (InFiles : List String) :
    (ParseFileStatusResult env InRepoStatus InFiles).map Prod.fst = InFiles := by
  unfold ParseFileStatusResult
  induction InFiles with
  | nil => rfl
  | cons g rest ih => simp_all

/-- The deleted cached entry of the submit-drops-deleted scenario. -/
def EntryDeletedX : FFriendshipperSourceControlState :=
  { State :=
      { FileState := EFileState.Deleted
        TreeState := ETreeState.Unmodified
        LockState := ELockState.Locked
        RemoteState := ERemoteState.UpToDate
        LockUser := "alice"
        HeadBranch := "" }
    LocalFilename := "/repo/X.uasset"
    TimeStamp := 4 }

/-- Concrete status environment for the submit scenario: repository root
`/repo/`, `.uasset` lockable, lock user alice, and only `B` existing on
disk (the deleted `X` is gone). -/
def StatusEnvW : StatusEnv :=
  { InRepositoryRoot := "/repo/"
    LockableTypes := [".uasset"]
    LfsUserName := "alice"
    FileExistsFn := fun s => decide (s = "/repo/B.uasset")
    LockAbsPath := fun s => "/repo/" ++ s
    CombinePath := fun a b => a ++ b }

/-- A quiet post-submit repo status: nothing modified, untracked, locked
or upstream-modified. -/
def RepoStatusW : FRepoStatus :=
  { ModifiedFiles := []
    UntrackedFiles := []
    LocksOurs := []
    LocksTheirs := []
    ModifiedUpstream := []
    RemoteBranch := "main" }

/-- **C8 (counterexample).** At the spec scenario's input — CheckIn of
`[X (deleted), Y (modified)]` with a successful status re-fetch — `X` is
not removed entirely from the state cache: `ParseFileStatusResult` emits
an entry for every queried file, so the drain merge re-creates `X`
through `GetStateInternal` as a fresh fully-unknown entry merged with the
re-fetched status (here Unknown/NotInRepo, not locked, stamped with the
minimum date). -/
theorem CheckInWorker_drop_deleted_counterexample :
    IsDeleted EntryDeletedX ∧
    FindItem (CheckInPostSubmit
        [("/repo/X.uasset", EntryDeletedX), ("/repo/B.uasset", EntryWorkingNotLocked)] []
        ["/repo/X.uasset", "/repo/B.uasset"] 77 StatusEnvW true RepoStatusW).1
      "/repo/X.uasset" =
      some { State :=
               { FileState := EFileState.Unknown
                 TreeState := ETreeState.NotInRepo
                 LockState := ELockState.NotLocked
                 RemoteState := ERemoteState.Unset
                 LockUser := ""
                 HeadBranch := "" }
             LocalFilename := "/repo/X.uasset"
             TimeStamp := FDateTimeMinValue } := by
  refine ⟨by decide, by decide⟩

/-- **C8 (amended).** When the CheckIn worker's submit succeeds: every
submitted file whose cached state is Deleted is removed from the state
cache by the worker, but the follow-up status re-fetch covers every
submitted file, so on a successful re-fetch the drain-time merge
re-creates the entry — as a fresh first-observation entry (timestamp
forced to the minimum date, so the next status query refreshes it)
carrying the re-fetched status; every other submitted file remains in the
cache with its re-fetched status merged in. -/
theorem CheckInWorker_deleted_recreated (StateCache : StateCacheModel)
    (ignore : List String) (Files : List String) (Now : Nat) (env : StatusEnv)
    (RepoStatus : FRepoStatus) (f : String)
    (hnodup : Files.Nodup) (hmem : f ∈ Files)
    (hroot : StringStartsWith f env.InRepositoryRoot = true)
    (hup : ∀ m ∈ RepoStatus.ModifiedUpstream,
      env.CombinePath env.InRepositoryRoot m ≠ f) :
    ((∃ e, FindItem StateCache f = some e ∧ IsDeleted e) →
      FindItem (CheckInPostSubmit StateCache ignore Files Now env true RepoStatus).1 f =
        some (MergeEntry (MakeUnknownState f)
          (ParseOneFileStatus env RepoStatus f).State Now)) ∧
    (MergeEntry (MakeUnknownState f)
      (ParseOneFileStatus env RepoStatus f).State Now).TimeStamp = FDateTimeMinValue ∧
    ((∀ e, FindItem StateCache f = some e → ¬ IsDeleted e) →
      FindItem (CheckInPostSubmit StateCache ignore Files Now env true RepoStatus).1 f =
        some (MergeEntry ((FindItem StateCache f).getD (MakeUnknownState f))
          (ParseOneFileStatus env RepoStatus f).State Now)) := by
  have hrf : (Files.filter (fun g => StringStartsWith g env.InRepositoryRoot)).isEmpty
      = false := by
    have hfl : f ∈ Files.filter (fun g => StringStartsWith g env.InRepositoryRoot) :=
      List.mem_filter.mpr ⟨hmem, hroot⟩
    cases hft : Files.filter (fun g => StringStartsWith g env.InRepositoryRoot) with
    | nil => rw [hft] at hfl; simp at hfl
    | cons a t => rfl
  have hrun : RunUpdateStatus env Files true RepoStatus =
      (CheckRemote env RepoStatus (ParseFileStatusResult env RepoStatus Files), true) := by
    unfold RunUpdateStatus
    simp [hrf]
  have hstates : (if (RunUpdateStatus env Files true RepoStatus).2 then
        (RunUpdateStatus env Files true RepoStatus).1.map (fun p => (p.1, p.2.State))
      else []) =
      (CheckRemote env RepoStatus (ParseFileStatusResult env RepoStatus Files)).map
        (fun p => (p.1, p.2.State)) := by
    rw [hrun]
    rfl
  have hSfind : FindItem ((CheckRemote env RepoStatus
      (ParseFileStatusResult env RepoStatus Files)).map (fun p => (p.1, p.2.State))) f =
      some (ParseOneFileStatus env RepoStatus f).State := by
    rw [FindItem_map_state]
    rw [show CheckRemote env RepoStatus (ParseFileStatusResult env RepoStatus Files) =
        RepoStatus.ModifiedUpstream.foldl (CheckRemoteStep env RepoStatus)
          (ParseFileStatusResult env RepoStatus Files) from rfl]
    rw [CheckRemoteFold_ne env RepoStatus RepoStatus.ModifiedUpstream f hup]
    rw [show ParseFileStatusResult env RepoStatus Files =
        Files.map (fun g => (g, ParseOneFileStatus env RepoStatus g)) from rfl]
    rw [FindItem_map_fn _ Files f hmem]
    rfl
  have hSkeys : (((CheckRemote env RepoStatus
      (ParseFileStatusResult env RepoStatus Files)).map
        (fun p => (p.1, p.2.State))).map Prod.fst).Nodup := by
    rw [FindItem_map_state_keys]
    rw [show CheckRemote env RepoStatus (ParseFileStatusResult env RepoStatus Files) =
        RepoStatus.ModifiedUpstream.foldl (CheckRemoteStep env RepoStatus)
          (ParseFileStatusResult env RepoStatus Files) from rfl]
    rw [CheckRemoteFold_keys env RepoStatus RepoStatus.ModifiedUpstream]
    rw [ParseFileStatusResult_keys]
    exact hnodup
  have hnr : ¬ AddRejected (MakeUnknownState f)
      (ParseOneFileStatus env RepoStatus f).State :=
    fun hr => hr.2.1 ⟨rfl, rfl⟩
  refine ⟨?_, ?_, ?_⟩
  · rintro ⟨e, he, hd⟩
    have hc1 : FindItem (GetStateEnsure StateCache Files) f = some e := by
      rw [GetStateEnsure_mem Files f StateCache hmem, he]
      rfl
    have hc2 := RemoveDeletedFold_deleted (GetStateEnsure StateCache Files) Files f e hc1 hd
      (GetStateEnsure StateCache Files) hmem
    show FindItem (UpdateCachedStates _ ignore _ Now).1 f = _
    rw [hstates]
    rw [UpdateCachedStates_lookup _ ignore _ Now f
      (ParseOneFileStatus env RepoStatus f).State hSkeys hSfind]
    rw [hc2]
    rfl
  · rw [MergeEntry_eq _ _ _ hnr]
    simp [MakeUnknownState]
  · intro hk
    have hc1 : FindItem (GetStateEnsure StateCache Files) f =
        some ((FindItem StateCache f).getD (MakeUnknownState f)) :=
      GetStateEnsure_mem Files f StateCache hmem
    have hk1 : ∀ e, FindItem (GetStateEnsure StateCache Files) f = some e →
        ¬ IsDeleted e := by
      intro e he2
      rw [hc1] at he2
      cases hcc : FindItem StateCache f with
      | some e0 =>
        rw [hcc] at he2
        have he3 : e = e0 := by simpa using he2.symm
        rw [he3]
        exact hk e0 hcc
      | none =>
        rw [hcc] at he2
        have he3 : e = MakeUnknownState f := by simpa using he2.symm
        rw [he3]
        simp [IsDeleted, MakeUnknownState]
    have hkeep := RemoveDeletedFold_keep (GetStateEnsure StateCache Files) Files f hk1
      (GetStateEnsure StateCache Files)
    show FindItem (UpdateCachedStates _ ignore _ Now).1 f = _
    rw [hstates]
    rw [UpdateCachedStates_lookup _ ignore _ Now f
      (ParseOneFileStatus env RepoStatus f).State hSkeys hSfind]
    rw [hkeep, hc1]
    rfl

/-- Witness for the amended C8 at the spec scenario: CheckIn of
`[X (deleted), B (modified)]` with a successful quiet re-fetch — `X` is
re-created as a fresh first-observation entry with the re-fetched status
and the minimum-date stamp, `B` remains with its re-fetched status merged
in. -/
theorem CheckInWorker_deleted_recreated_witness :
    FindItem (CheckInPostSubmit
        [("/repo/X.uasset", EntryDeletedX), ("/repo/B.uasset", EntryWorkingNotLocked)] []
        ["/repo/X.uasset", "/repo/B.uasset"] 77 StatusEnvW true RepoStatusW).1
      "/repo/X.uasset" =
      some (MergeEntry (MakeUnknownState "/repo/X.uasset")
        (ParseOneFileStatus StatusEnvW RepoStatusW "/repo/X.uasset").State 77) ∧
    (MergeEntry (MakeUnknownState "/repo/X.uasset")
      (ParseOneFileStatus StatusEnvW RepoStatusW "/repo/X.uasset").State 77).TimeStamp =
      FDateTimeMinValue ∧
    FindItem (CheckInPostSubmit
        [("/repo/X.uasset", EntryDeletedX), ("/repo/B.uasset", EntryWorkingNotLocked)] []
        ["/repo/X.uasset", "/repo/B.uasset"] 77 StatusEnvW true RepoStatusW).1
      "/repo/B.uasset" =
      some (MergeEntry EntryWorkingNotLocked
        (ParseOneFileStatus StatusEnvW RepoStatusW "/repo/B.uasset").State 77) := by
  have hX := CheckInWorker_deleted_recreated
    [("/repo/X.uasset", EntryDeletedX), ("/repo/B.uasset", EntryWorkingNotLocked)] []
    ["/repo/X.uasset", "/repo/B.uasset"] 77 StatusEnvW RepoStatusW "/repo/X.uasset"
    (by decide) (by decide) (by decide) (by decide)
  have hB := CheckInWorker_deleted_recreated
    [("/repo/X.uasset", EntryDeletedX), ("/repo/B.uasset", EntryWorkingNotLocked)] []
    ["/repo/X.uasset", "/repo/B.uasset"] 77 StatusEnvW RepoStatusW "/repo/B.uasset"
    (by decide) (by decide) (by decide) (by decide)
  have hBkeep := hB.2.2 (by
    intro e he
    have he2 : e = EntryWorkingNotLocked := by
      rw [show FindItem
          [("/repo/X.uasset", EntryDeletedX), ("/repo/B.uasset", EntryWorkingNotLocked)]
          "/repo/B.uasset" = some EntryWorkingNotLocked from by decide] at he
      exact (Option.some_inj.mp he).symm
    rw [he2]
    decide)
  refine ⟨hX.1 ⟨EntryDeletedX, by decide, by decide⟩, hX.2.1, ?_⟩
  rw [hBkeep]
  rfl
